import Mathlib

/-!
# Verification of the tfblockeditor core (shallow embedding)

This file embeds the core data structures and operations of the
`tfblockeditor` repository in Lean 4 and proves (or refutes) the frozen
specification claims about them.

Embedding conventions:

* `bevy::HashMap` is modelled by association lists with normalised
  `insertM`/`eraseM`/`lookupM` operations; map contents are always compared
  extensionally (via `lookupM`).
* Rendering-only state (the `rendered: Option<Entity>` back-reference inside
  `VoxelInfo`, the `Commands`/`Common` parameters, and every
  `redraw_voxel`/`despawn` call) is omitted: it only drives the excluded
  renderer and no claim mentions it.  `VoxelInfo` therefore collapses to its
  `material` field.
* The closure-based undo log of `voxels.rs` is defunctionalised into the
  `UndoAction` variants `reinsert`/`delete`/`unshift`, one per closure shape
  actually pushed by the source, interpreted by `apply_undo_action`.
* Rust `Vec` used as a stack (`undo_log`, `undo_commit_indexes`) is modelled
  by a Lean `List` whose *head* is the Rust vector's *last* element (the top
  of the stack), so `Vec::push`/`pop`/`last` become `cons`/head-match/`head?`.
* Rust floats are modelled with exact rational arithmetic (`ℚ`); the few
  comparisons the source makes against square roots are expressed by the
  equivalent comparison of squares, noted at each definition.
-/

namespace TfBlockEditor

/-! ## Association-list maps (model of `bevy::platform::collections::HashMap`) -/

/-- Lookup of the value stored at key `k` (first matching entry). -/
def lookupM {α β : Type} [DecidableEq α] (k : α) : List (α × β) → Option β
  | [] => none
  | p :: rest => if p.1 = k then some p.2 else lookupM k rest

/-- Remove every entry with key `k` (model of `HashMap::remove`). -/
def eraseM {α β : Type} [DecidableEq α] (k : α) (l : List (α × β)) : List (α × β) :=
  l.filter (fun p => decide (p.1 ≠ k))

/-- Insert (or overwrite) the entry at key `k` (model of `HashMap::insert`). -/
def insertM {α β : Type} [DecidableEq α] (k : α) (v : β) (l : List (α × β)) : List (α × β) :=
  (k, v) :: eraseM k l

theorem lookupM_erase_self {α β : Type} [DecidableEq α] (k : α) (l : List (α × β)) :
    lookupM k (eraseM k l) = none := by
  induction l with
  | nil => rfl
  | cons p rest ih =>
    by_cases h : p.1 = k
    · simpa [eraseM, h] using ih
    · simpa [eraseM, lookupM, h] using ih

theorem lookupM_erase_ne {α β : Type} [DecidableEq α] {k w : α} (l : List (α × β))
    (h : w ≠ k) : lookupM w (eraseM k l) = lookupM w l := by
  induction l with
  | nil => rfl
  | cons p rest ih =>
    by_cases hp : p.1 = k
    · have hkw : p.1 ≠ w := by rw [hp]; exact fun hw => h hw.symm
      have h1 : eraseM k (p :: rest) = eraseM k rest := by
        simp [eraseM, List.filter_cons, hp]
      rw [h1, ih]
      simp [lookupM, hkw]
    · have h1 : eraseM k (p :: rest) = p :: eraseM k rest := by
        simp [eraseM, List.filter_cons, hp]
      rw [h1]
      by_cases hw : p.1 = w
      · simp [lookupM, hw]
      · simp only [lookupM, hw, if_false]
        exact ih

theorem lookupM_insert_self {α β : Type} [DecidableEq α] (k : α) (v : β) (l : List (α × β)) :
    lookupM k (insertM k v l) = some v := by
  simp [insertM, lookupM]

theorem lookupM_insert_ne {α β : Type} [DecidableEq α] {k w : α} (v : β) (l : List (α × β))
    (h : w ≠ k) : lookupM w (insertM k v l) = lookupM w l := by
  have : k ≠ w := fun hw => h hw.symm
  simp [insertM, lookupM, this, lookupM_erase_ne l h]

/-! ## Data model of `src/voxels.rs` -/

/-- Integer 3-vector (model of `glam::IVec3`). -/
structure IVec3 where
  x : Int
  y : Int
  z : Int
deriving DecidableEq, Repr

/-- Integer 2-vector (model of `glam::IVec2`). -/
structure IVec2 where
  x : Int
  y : Int
deriving DecidableEq, Repr

/-- The origin, `IVec3::ZERO`. -/
def IVec3.zero : IVec3 := ⟨0, 0, 0⟩

/-- The `xz()` swizzle of an `IVec3`. -/
def IVec3.xz (v : IVec3) : IVec2 := ⟨v.x, v.z⟩

/-- Material handles.  The source stores `Handle<StandardMaterial>` values and
compares them against the designated `common.red_material` / `common.blue_material`
handles; here `red` and `blue` stand for those two designated handles and the
remaining constructors for every other handle. -/
inductive Material where
  | red
  | blue
  | gray
  | other (n : Nat)
deriving DecidableEq, Repr

/-- Modelled from the spec: the type `SelectedFace` is referenced by
`voxels.rs` (`use crate::SelectedFace`) but its definition is not present
under `src/`; the spec treats the committed snapshot as "an opaque
editor-state snapshot such as the active selection", so a selected face is
modelled as an opaque token (a voxel coordinate plus a face index). -/
structure SelectedFace where
  voxel : IVec3
  face : Nat
deriving DecidableEq, Repr

/-- A snapshot of the editor state, for applying undos (`CommittedEditorState`). -/
structure CommittedEditorState where
  selection : List SelectedFace
deriving DecidableEq, Repr

/-- `SymmetryKind` from `voxels.rs` (`None` / `Rotation` / `MirrorX`). -/
inductive SymmetryKind where
  | noSymmetry
  | rotation
  | mirrorX
deriving DecidableEq, Repr

/-- Defunctionalised undo closures.  `voxels.rs` pushes exactly three shapes
of `UndoFunction` closure: the re-insert closure of `remove_voxel_internal`,
the delete closure of `add_voxel_internal`, and the shift-reversal closure of
`shift_column_internal`.  Rendering calls inside the closures are omitted. -/
inductive UndoAction where
  | reinsert (voxel : IVec3) (mat : Material)
  | delete (voxel : IVec3)
  | unshift (column : IVec2) (amount : Int)
deriving DecidableEq, Repr

/-- The voxel world state (`struct Voxels`), minus rendering-only data.
`voxel_fill` maps a coordinate to its material (the `rendered` entity
back-reference is omitted), `undo_log`/`undo_commit_indexes` are stacks whose
list head is the most recent entry. -/
structure Voxels where
  symmetry : SymmetryKind
  voxel_fill : List (IVec3 × Material)
  column_shift : List (IVec2 × Int)
  undo_log : List UndoAction
  editor_state_before : Option CommittedEditorState
  undo_commit_indexes : List (Nat × CommittedEditorState)
deriving DecidableEq, Repr

namespace Voxels

/-- Adds a function to the undo log (`Voxels::add_undo_log`). -/
def add_undo_log (s : Voxels) (f : UndoAction) : Voxels :=
  { s with undo_log := f :: s.undo_log }

/-- `Voxels::new_empty`. -/
def new_empty : Voxels where
  symmetry := .rotation
  voxel_fill := []
  column_shift := []
  undo_log := []
  editor_state_before := none
  undo_commit_indexes := []

/-- `Voxels::apply_symmetry`: no mirror for the centre column, otherwise the
coordinate mirrored according to the symmetry kind. -/
def apply_symmetry (s : Voxels) (voxel : IVec3) : Option IVec3 :=
  if voxel.xz = (⟨0, 0⟩ : IVec2) then none
  else
    match s.symmetry with
    | .noSymmetry => none
    | .rotation => some ⟨-voxel.x, voxel.y, -voxel.z⟩
    | .mirrorX => some ⟨-voxel.x, voxel.y, voxel.z⟩

/-- `Voxels::remove_voxel_internal`: protected origin, then remove the entry
(capturing its material) and push the re-insert undo closure. -/
def remove_voxel_internal (s : Voxels) (voxel : IVec3) : Voxels :=
  if voxel = IVec3.zero then s
  else
    match lookupM voxel s.voxel_fill with
    | none => s
    | some voxel_info =>
      let s := { s with voxel_fill := eraseM voxel s.voxel_fill }
      add_undo_log s (.reinsert voxel voxel_info)

/-- `Voxels::remove_voxel`: the primitive removal, then the mirrored removal
when symmetry applies. -/
def remove_voxel (s : Voxels) (voxel : IVec3) : Voxels :=
  match apply_symmetry (remove_voxel_internal s voxel) voxel with
  | none => remove_voxel_internal s voxel
  | some voxel2 => remove_voxel_internal (remove_voxel_internal s voxel) voxel2

/-- `Voxels::add_voxel_internal`: first remove whatever is at the location
(which pushes its own undo entry), then insert the new cell and push the
delete undo closure. -/
def add_voxel_internal (s : Voxels) (voxel : IVec3) (mat : Material) : Voxels :=
  let s := remove_voxel_internal s voxel
  let s := { s with voxel_fill := insertM voxel mat s.voxel_fill }
  add_undo_log s (.delete voxel)

/-- `Voxels::add_voxel`: the primitive insertion, then the mirrored insertion
with the red/blue colour complement when symmetry applies. -/
def add_voxel (s : Voxels) (voxel : IVec3) (mat : Material) : Voxels :=
  match apply_symmetry (add_voxel_internal s voxel mat) voxel with
  | none => add_voxel_internal s voxel mat
  | some voxel2 =>
    add_voxel_internal (add_voxel_internal s voxel mat) voxel2
      (if mat = Material.red then Material.blue
       else if mat = Material.blue then Material.red
       else mat)

/-- `Voxels::has_voxel`. -/
def has_voxel (s : Voxels) (voxel : IVec3) : Bool :=
  (lookupM voxel s.voxel_fill).isSome

/-- `Voxels::get_voxel` (the stored `VoxelInfo`, reduced to its material). -/
def get_voxel (s : Voxels) (voxel : IVec3) : Option Material :=
  lookupM voxel s.voxel_fill

/-- `Voxels::get_material`. -/
def get_material (s : Voxels) (voxel : IVec3) : Option Material :=
  get_voxel s voxel

/-- The rendering-time shift of a column (`column_shift.get(..).copied().unwrap_or(0)`,
as read by `redraw_voxel`). -/
def get_column_shift (s : Voxels) (column : IVec2) : Int :=
  (lookupM column s.column_shift).getD 0

/-- `Voxels::shift_column_internal`: bump the column's accumulated shift
(`entry(column).or_default() += by`) and push the reversal undo closure. -/
def shift_column_internal (s : Voxels) (column : IVec2) (amount : Int) : Voxels :=
  let s := { s with
    column_shift := insertM column ((lookupM column s.column_shift).getD 0 + amount) s.column_shift }
  add_undo_log s (.unshift column amount)

/-- `Voxels::shift_column`: the primitive shift, then the mirrored column
when symmetry applies (the source builds `IVec3::new(column.x, 0, column.y)`
and mirrors its `xz()`). -/
def shift_column (s : Voxels) (column : IVec2) (amount : Int) : Voxels :=
  match apply_symmetry (shift_column_internal s column amount) ⟨column.x, 0, column.y⟩ with
  | none => shift_column_internal s column amount
  | some symmetric_voxel =>
    shift_column_internal (shift_column_internal s column amount) symmetric_voxel.xz amount

/-- `Voxels::has_changes_to_commit`: compares the last recorded boundary index
against the current undo-log length; `true` when no boundary exists. -/
def has_changes_to_commit (s : Voxels) : Bool :=
  match s.undo_commit_indexes.head? with
  | some record => decide (record.1 ≠ s.undo_log.length)
  | none => true

/-- `Voxels::commit_changes`: push the current undo-log length together with
the editor-state snapshot. -/
def commit_changes (s : Voxels) (editor_state : CommittedEditorState) : Voxels :=
  { s with undo_commit_indexes := (s.undo_log.length, editor_state) :: s.undo_commit_indexes }

/-- The `EMPTY_EDITOR_STATE` constant of `undo_last_action`. -/
def EMPTY_EDITOR_STATE : CommittedEditorState := ⟨[]⟩

/-- Interpreter for the defunctionalised undo closures: the re-insert closure
puts the removed cell back, the delete closure removes the added cell (a no-op
when absent, exactly like erasure), the shift closure subtracts the delta. -/
def apply_undo_action (s : Voxels) : UndoAction → Voxels
  | .reinsert voxel mat => { s with voxel_fill := insertM voxel mat s.voxel_fill }
  | .delete voxel => { s with voxel_fill := eraseM voxel s.voxel_fill }
  | .unshift column amount =>
    { s with column_shift :=
        insertM column ((lookupM column s.column_shift).getD 0 - amount) s.column_shift }

/-- The `while self.undo_log.len() > undo_until` loop of `undo_last_action`.
Each iteration pops one entry, so the loop runs exactly
`undo_log.len() - undo_until` times; the iteration count is made explicit to
keep the recursion structural. -/
def undo_pop_loop : Nat → Voxels → Voxels
  | 0, s => s
  | n + 1, s =>
    match s.undo_log with
    | [] => s
    | undo_func :: rest => undo_pop_loop n (apply_undo_action { s with undo_log := rest } undo_func)

/-- `Voxels::undo_last_action`: pop the most recent commit boundary (yielding
its snapshot, or the empty snapshot), then pop and apply undo entries down to
the previous boundary (or to the start).  Returns the new state and the
snapshot the caller should restore. -/
def undo_last_action (s : Voxels) : Voxels × CommittedEditorState :=
  let popped : CommittedEditorState × Voxels :=
    match s.undo_commit_indexes with
    | [] => (EMPTY_EDITOR_STATE, s)
    | (_, last_editor_state) :: rest =>
      (last_editor_state, { s with undo_commit_indexes := rest })
  let s1 := popped.2
  let undo_until := ((s1.undo_commit_indexes.head?).map Prod.fst).getD 0
  (undo_pop_loop (s1.undo_log.length - undo_until) s1, popped.1)

end Voxels

namespace Voxels

/-! ## Machinery about the undo log -/

/-- Folding a batch of undo actions over a state, oldest-applied-last: the
head of the list is applied first (it is the most recently pushed action). -/
def undoList (acts : List UndoAction) (s : Voxels) : Voxels :=
  acts.foldl apply_undo_action s

theorem apply_undo_action_undo_log (s : Voxels) (a : UndoAction) :
    (apply_undo_action s a).undo_log = s.undo_log := by
  cases a <;> rfl

theorem apply_undo_action_commit_indexes (s : Voxels) (a : UndoAction) :
    (apply_undo_action s a).undo_commit_indexes = s.undo_commit_indexes := by
  cases a <;> rfl

theorem apply_undo_action_symmetry_eq (s : Voxels) (a : UndoAction) :
    (apply_undo_action s a).symmetry = s.symmetry := by
  cases a <;> rfl

theorem apply_undo_action_set_log (s : Voxels) (a : UndoAction) (l : List UndoAction) :
    apply_undo_action { s with undo_log := l } a
      = { apply_undo_action s a with undo_log := l } := by
  cases a <;> rfl

theorem undoList_append (P Q : List UndoAction) (s : Voxels) :
    undoList (P ++ Q) s = undoList Q (undoList P s) := by
  simp [undoList, List.foldl_append]

theorem undoList_set_log (acts : List UndoAction) (s : Voxels) (l : List UndoAction) :
    undoList acts { s with undo_log := l } = { undoList acts s with undo_log := l } := by
  induction acts generalizing s with
  | nil => rfl
  | cons a rest ih =>
    show undoList rest (apply_undo_action { s with undo_log := l } a) = _
    rw [apply_undo_action_set_log, ih]
    rfl

theorem undoList_undo_log (acts : List UndoAction) (s : Voxels) :
    (undoList acts s).undo_log = s.undo_log := by
  induction acts generalizing s with
  | nil => rfl
  | cons a rest ih =>
    show (undoList rest (apply_undo_action s a)).undo_log = _
    rw [ih, apply_undo_action_undo_log]

theorem undoList_commit_indexes (acts : List UndoAction) (s : Voxels) :
    (undoList acts s).undo_commit_indexes = s.undo_commit_indexes := by
  induction acts generalizing s with
  | nil => rfl
  | cons a rest ih =>
    show (undoList rest (apply_undo_action s a)).undo_commit_indexes = _
    rw [ih, apply_undo_action_commit_indexes]

/-- Extensional equality of the two renderer-relevant mappings: the voxel
mapping (coordinate to material) and the column-shift mapping. -/
def MapEq (s t : Voxels) : Prop :=
  (∀ v, get_material s v = get_material t v) ∧
    (∀ c, get_column_shift s c = get_column_shift t c)

theorem MapEq_refl (s : Voxels) : MapEq s s :=
  ⟨fun _ => rfl, fun _ => rfl⟩

theorem MapEq_trans {s t u : Voxels} (h1 : MapEq s t) (h2 : MapEq t u) : MapEq s u :=
  ⟨fun v => (h1.1 v).trans (h2.1 v), fun c => (h1.2 c).trans (h2.2 c)⟩

theorem MapEq_of_fields {s t : Voxels} (h1 : s.voxel_fill = t.voxel_fill)
    (h2 : s.column_shift = t.column_shift) : MapEq s t :=
  ⟨fun v => by simp [get_material, get_voxel, h1], fun c => by simp [get_column_shift, h2]⟩

theorem MapEq_apply_undo_action {s t : Voxels} (h : MapEq s t) (a : UndoAction) :
    MapEq (apply_undo_action s a) (apply_undo_action t a) := by
  cases a with
  | reinsert v m =>
    refine ⟨fun w => ?_, fun c => h.2 c⟩
    by_cases hw : w = v
    · subst hw
      simp [get_material, get_voxel, apply_undo_action, lookupM_insert_self]
    · simpa [get_material, get_voxel, apply_undo_action, lookupM_insert_ne _ _ hw]
        using h.1 w
  | delete v =>
    refine ⟨fun w => ?_, fun c => h.2 c⟩
    by_cases hw : w = v
    · subst hw
      simp [get_material, get_voxel, apply_undo_action, lookupM_erase_self]
    · simpa [get_material, get_voxel, apply_undo_action, lookupM_erase_ne _ hw]
        using h.1 w
  | unshift c0 amount =>
    refine ⟨fun w => h.1 w, fun c => ?_⟩
    by_cases hc : c = c0
    · subst hc
      have hsh := h.2 c
      simp only [get_column_shift] at hsh
      simp [get_column_shift, apply_undo_action, lookupM_insert_self, hsh]
    · simpa [get_column_shift, apply_undo_action, lookupM_insert_ne _ _ hc]
        using h.2 c

theorem MapEq_undoList {s t : Voxels} (h : MapEq s t) (acts : List UndoAction) :
    MapEq (undoList acts s) (undoList acts t) := by
  induction acts generalizing s t with
  | nil => exact h
  | cons a rest ih =>
    exact ih (MapEq_apply_undo_action h a)

/-- The pop-and-apply loop of `undo_last_action`, run for exactly the length
of the newest segment `P` of the undo log, removes `P` from the log and has
the same effect on the state as interpreting `P` front-to-back. -/
theorem undo_pop_loop_spec (P : List UndoAction) :
    ∀ (s : Voxels) (rest : List UndoAction), s.undo_log = P ++ rest →
      undo_pop_loop P.length s = { undoList P s with undo_log := rest } := by
  induction P with
  | nil =>
    intro s rest h
    rw [List.nil_append] at h
    show s = { undoList [] s with undo_log := rest }
    show s = { s with undo_log := rest }
    rw [← h]
  | cons a P ih =>
    intro s rest h
    obtain ⟨sym, fill, shift, log, esb, uci⟩ := s
    replace h : log = a :: (P ++ rest) := h
    subst h
    have step : undo_pop_loop (a :: P).length
          (⟨sym, fill, shift, a :: (P ++ rest), esb, uci⟩ : Voxels)
        = undo_pop_loop P.length
            (apply_undo_action (⟨sym, fill, shift, P ++ rest, esb, uci⟩ : Voxels) a) := rfl
    rw [step]
    have hset : (⟨sym, fill, shift, P ++ rest, esb, uci⟩ : Voxels)
        = { (⟨sym, fill, shift, a :: (P ++ rest), esb, uci⟩ : Voxels) with
            undo_log := P ++ rest } := rfl
    rw [hset, apply_undo_action_set_log]
    rw [ih _ rest rfl, undoList_set_log]
    rfl

/-- The state `t` extends `s` by a batch `P` of freshly pushed undo actions
whose interpretation restores the voxel and column-shift mappings of `s`;
commit boundaries and the symmetry setting are untouched. -/
def UndoesTo (s t : Voxels) : Prop :=
  ∃ P, t.undo_log = P ++ s.undo_log
    ∧ t.undo_commit_indexes = s.undo_commit_indexes
    ∧ t.symmetry = s.symmetry
    ∧ MapEq (undoList P t) s

theorem UndoesTo_refl (s : Voxels) : UndoesTo s s :=
  ⟨[], rfl, rfl, rfl, MapEq_refl s⟩

theorem UndoesTo_trans {s t u : Voxels} (h1 : UndoesTo s t) (h2 : UndoesTo t u) :
    UndoesTo s u := by
  obtain ⟨P1, hl1, hc1, hs1, hm1⟩ := h1
  obtain ⟨P2, hl2, hc2, hs2, hm2⟩ := h2
  refine ⟨P2 ++ P1, by rw [hl2, hl1, List.append_assoc], hc2.trans hc1, hs2.trans hs1, ?_⟩
  rw [undoList_append]
  exact MapEq_trans (MapEq_undoList hm2 P1) hm1

theorem UndoesTo_remove_voxel_internal (s : Voxels) (v : IVec3) :
    UndoesTo s (remove_voxel_internal s v) := by
  unfold remove_voxel_internal
  by_cases hz : v = IVec3.zero
  · simpa [hz] using UndoesTo_refl s
  · simp only [hz, if_false]
    cases hl : lookupM v s.voxel_fill with
    | none => exact UndoesTo_refl s
    | some m =>
      refine ⟨[.reinsert v m], rfl, rfl, rfl, fun w => ?_, fun c => rfl⟩
      by_cases hw : w = v
      · subst hw
        simp [undoList, apply_undo_action, get_material, get_voxel, add_undo_log,
          lookupM_insert_self, hl]
      · simp [undoList, apply_undo_action, get_material, get_voxel, add_undo_log,
          lookupM_insert_ne _ _ hw, lookupM_erase_ne _ hw]

theorem remove_voxel_internal_lookup_self (s : Voxels) (v : IVec3)
    (h0 : v = IVec3.zero → lookupM v s.voxel_fill = none) :
    lookupM v (remove_voxel_internal s v).voxel_fill = none := by
  unfold remove_voxel_internal
  by_cases hz : v = IVec3.zero
  · simpa [hz] using h0 hz
  · simp only [hz, if_false]
    cases hl : lookupM v s.voxel_fill with
    | none => exact hl
    | some m => simp [add_undo_log, lookupM_erase_self]

theorem UndoesTo_add_voxel_internal (s : Voxels) (v : IVec3) (mat : Material)
    (h0 : v = IVec3.zero → lookupM v s.voxel_fill = none) :
    UndoesTo s (add_voxel_internal s v mat) := by
  refine UndoesTo_trans (UndoesTo_remove_voxel_internal s v) ?_
  have hnone : lookupM v (remove_voxel_internal s v).voxel_fill = none :=
    remove_voxel_internal_lookup_self s v h0
  refine ⟨[.delete v], rfl, rfl, rfl, fun w => ?_, fun c => rfl⟩
  by_cases hw : w = v
  · subst hw
    simp [undoList, apply_undo_action, get_material, get_voxel, add_undo_log,
      add_voxel_internal, lookupM_erase_self, hnone]
  · simp [undoList, apply_undo_action, get_material, get_voxel, add_undo_log,
      add_voxel_internal, lookupM_erase_ne _ hw, lookupM_insert_ne _ _ hw]

theorem apply_symmetry_congr {s t : Voxels} (h : s.symmetry = t.symmetry) (v : IVec3) :
    apply_symmetry s v = apply_symmetry t v := by
  unfold apply_symmetry
  rw [h]

theorem apply_symmetry_ne_zero {s : Voxels} {v v2 : IVec3}
    (h : apply_symmetry s v = some v2) : v2 ≠ IVec3.zero := by
  unfold apply_symmetry at h
  by_cases hxz : v.xz = (⟨0, 0⟩ : IVec2)
  · simp [hxz] at h
  · simp only [hxz, if_false] at h
    have hne : v.x ≠ 0 ∨ v.z ≠ 0 := by
      by_contra hc
      push_neg at hc
      exact hxz (by simp [IVec3.xz, hc.1, hc.2])
    cases hsym : s.symmetry <;> rw [hsym] at h
    · exact absurd h (by simp)
    · intro hz
      rw [← Option.some_inj.mp h] at hz
      have hx : -v.x = 0 := congrArg IVec3.x hz
      have hzz : -v.z = 0 := congrArg IVec3.z hz
      rcases hne with h' | h'
      · exact h' (by omega)
      · exact h' (by omega)
    · intro hz
      rw [← Option.some_inj.mp h] at hz
      have hx : -v.x = 0 := congrArg IVec3.x hz
      have hzz : v.z = 0 := congrArg IVec3.z hz
      rcases hne with h' | h'
      · exact h' (by omega)
      · exact h' hzz

theorem UndoesTo_remove_voxel (s : Voxels) (v : IVec3) :
    UndoesTo s (remove_voxel s v) := by
  unfold remove_voxel
  split
  · exact UndoesTo_remove_voxel_internal s v
  · exact UndoesTo_trans (UndoesTo_remove_voxel_internal s v)
      (UndoesTo_remove_voxel_internal _ _)

theorem UndoesTo_add_voxel (s : Voxels) (v : IVec3) (mat : Material)
    (h0 : v = IVec3.zero → lookupM v s.voxel_fill = none) :
    UndoesTo s (add_voxel s v mat) := by
  unfold add_voxel
  split
  · exact UndoesTo_add_voxel_internal s v mat h0
  · next v2 hsym =>
    refine UndoesTo_trans (UndoesTo_add_voxel_internal s v mat h0)
      (UndoesTo_add_voxel_internal _ v2 _ ?_)
    intro hz
    exact absurd hz (apply_symmetry_ne_zero hsym)

theorem UndoesTo_shift_column_internal (s : Voxels) (c : IVec2) (amount : Int) :
    UndoesTo s (shift_column_internal s c amount) := by
  refine ⟨[.unshift c amount], rfl, rfl, rfl, fun w => rfl, fun w => ?_⟩
  by_cases hw : w = c
  · subst hw
    simp [undoList, apply_undo_action, get_column_shift, add_undo_log,
      shift_column_internal, lookupM_insert_self]
  · simp [undoList, apply_undo_action, get_column_shift, add_undo_log,
      shift_column_internal, lookupM_insert_ne _ _ hw]

theorem UndoesTo_shift_column (s : Voxels) (c : IVec2) (amount : Int) :
    UndoesTo s (shift_column s c amount) := by
  unfold shift_column
  split
  · exact UndoesTo_shift_column_internal s c amount
  · exact UndoesTo_trans (UndoesTo_shift_column_internal s c amount)
      (UndoesTo_shift_column_internal _ _ amount)

end Voxels

/-! ## Low-level edit sequences -/

/-- One low-level edit call of the round-trip claims: `add_voxel`,
`remove_voxel` or `shift_column`. -/
inductive EditOp where
  | add (voxel : IVec3) (mat : Material)
  | remove (voxel : IVec3)
  | shift (column : IVec2) (amount : Int)
deriving DecidableEq, Repr

namespace Voxels

/-- Apply one edit call. -/
def applyEdit (s : Voxels) : EditOp → Voxels
  | .add voxel mat => add_voxel s voxel mat
  | .remove voxel => remove_voxel s voxel
  | .shift column amount => shift_column s column amount

/-- Apply a sequence of edit calls, left to right. -/
def applyEdits (s : Voxels) (ops : List EditOp) : Voxels :=
  ops.foldl applyEdit s

/-- No `add_voxel` call of the sequence targets the origin while the origin
cell is occupied.  (`add_voxel` at an occupied origin is not invertible: the
origin guard of `remove_voxel_internal` skips recording the overwritten
cell, so the undo log cannot restore it.) -/
def SafeOps (s : Voxels) (ops : List EditOp) : Prop :=
  ∀ pre mat post, ops = pre ++ EditOp.add IVec3.zero mat :: post →
    lookupM IVec3.zero (applyEdits s pre).voxel_fill = none

theorem UndoesTo_applyEdits (s : Voxels) (ops : List EditOp) (hsafe : SafeOps s ops) :
    UndoesTo s (applyEdits s ops) := by
  induction ops generalizing s with
  | nil => exact UndoesTo_refl s
  | cons op rest ih =>
    have h1 : UndoesTo s (applyEdit s op) := by
      cases op with
      | add v m =>
        refine UndoesTo_add_voxel s v m ?_
        intro hz
        subst hz
        exact hsafe [] m rest rfl
      | remove v => exact UndoesTo_remove_voxel s v
      | shift c a => exact UndoesTo_shift_column s c a
    refine UndoesTo_trans h1 (ih (applyEdit s op) ?_)
    intro pre mat post hpre
    exact hsafe (op :: pre) mat post (by rw [hpre]; rfl)

/-! ## Pointwise reading lemmas for the primitive operations -/

theorem remove_voxel_internal_symmetry_eq (s : Voxels) (v : IVec3) :
    (remove_voxel_internal s v).symmetry = s.symmetry := by
  unfold remove_voxel_internal
  split
  · rfl
  · split <;> rfl

theorem add_voxel_internal_symmetry_eq (s : Voxels) (v : IVec3) (m : Material) :
    (add_voxel_internal s v m).symmetry = s.symmetry :=
  remove_voxel_internal_symmetry_eq s v

theorem get_material_remove_voxel_internal_ne (s : Voxels) {v w : IVec3} (h : w ≠ v) :
    get_material (remove_voxel_internal s v) w = get_material s w := by
  unfold remove_voxel_internal
  split
  · rfl
  · split
    · rfl
    · simp [get_material, get_voxel, add_undo_log, lookupM_erase_ne _ h]

theorem get_material_add_voxel_internal_self (s : Voxels) (v : IVec3) (m : Material) :
    get_material (add_voxel_internal s v m) v = some m := by
  simp [add_voxel_internal, add_undo_log, get_material, get_voxel, lookupM_insert_self]

theorem get_material_add_voxel_internal_ne (s : Voxels) {v w : IVec3} (m : Material)
    (h : w ≠ v) : get_material (add_voxel_internal s v m) w = get_material s w := by
  have h1 : get_material (add_voxel_internal s v m) w
      = get_material (remove_voxel_internal s v) w := by
    simp [add_voxel_internal, add_undo_log, get_material, get_voxel, lookupM_insert_ne _ _ h]
  rw [h1, get_material_remove_voxel_internal_ne s h]

theorem get_material_add_voxel_mirror (s : Voxels) (x y z : Int) (mat : Material)
    (hsym : s.symmetry = .rotation) (hxz : ¬(x = 0 ∧ z = 0)) :
    get_material (add_voxel s ⟨x, y, z⟩ mat) ⟨-x, y, -z⟩
      = some (if mat = Material.red then Material.blue
              else if mat = Material.blue then Material.red else mat) := by
  have hxz' : (⟨x, y, z⟩ : IVec3).xz ≠ (⟨0, 0⟩ : IVec2) := by
    simpa [IVec3.xz, IVec2.mk.injEq] using hxz
  have happly : apply_symmetry (add_voxel_internal s ⟨x, y, z⟩ mat) ⟨x, y, z⟩
      = some ⟨-x, y, -z⟩ := by
    unfold apply_symmetry
    rw [add_voxel_internal_symmetry_eq, hsym]
    simp [hxz']
  unfold add_voxel
  simp only [happly]
  exact get_material_add_voxel_internal_self _ _ _

/-! ## Claim C1: round-trip undo -/

/-- Claim C1 (counterexample): the round-trip property fails as universally
stated.  First failure: starting from a state with uncommitted edits (one
`add_voxel` and no commit), a committed `shift_column` followed by
`undo_last_action` also rolls back the earlier uncommitted add, so voxel
`(1,0,0)` ends absent although it was present before the sequence.  Second
failure: starting from a fully committed state whose origin cell is occupied,
a committed `add_voxel` at the origin followed by `undo_last_action` leaves
the origin empty instead of restoring its previous material (the origin guard
of `remove_voxel_internal` skips recording the overwritten cell). -/
theorem claim_C1_roundtrip_undo_counterexample :
    (get_material ((undo_last_action (commit_changes
        (applyEdits (add_voxel new_empty ⟨1, 0, 0⟩ .gray) [.shift ⟨5, 5⟩ 1]) ⟨[]⟩)).1)
        ⟨1, 0, 0⟩ = none
      ∧ get_material (add_voxel new_empty ⟨1, 0, 0⟩ .gray) ⟨1, 0, 0⟩ = some .gray)
    ∧ (get_material ((undo_last_action (commit_changes
        (applyEdits (commit_changes (add_voxel new_empty IVec3.zero .red) ⟨[]⟩)
          [.add IVec3.zero .blue]) ⟨[]⟩)).1) IVec3.zero = none
      ∧ get_material (commit_changes (add_voxel new_empty IVec3.zero .red) ⟨[]⟩)
          IVec3.zero = some .red) := by
  decide

/-- Claim C1 (amended): for a starting state whose undo log sits exactly at
the last recorded commit boundary (no uncommitted low-level edits; length 0
when no boundary exists) and a sequence that never calls `add_voxel` on the
origin while the origin cell is occupied, applying the sequence, committing
once, then undoing once restores both the voxel mapping (coordinate to
material) and the column-shift mapping to their values before the sequence. -/
theorem claim_C1_roundtrip_undo (s : Voxels) (ops : List EditOp)
    (st : CommittedEditorState)
    (hb : s.undo_log.length = ((s.undo_commit_indexes.head?).map Prod.fst).getD 0)
    (hsafe : SafeOps s ops) :
    MapEq ((undo_last_action (commit_changes (applyEdits s ops) st)).1) s := by
  obtain ⟨P, hlog, hcommit, hsym, hmap⟩ := UndoesTo_applyEdits s ops hsafe
  have hstep : (undo_last_action (commit_changes (applyEdits s ops) st)).1
      = undo_pop_loop ((applyEdits s ops).undo_log.length
          - (((applyEdits s ops).undo_commit_indexes.head?).map Prod.fst).getD 0)
          (applyEdits s ops) := rfl
  have huntil : (((applyEdits s ops).undo_commit_indexes.head?).map Prod.fst).getD 0
      = s.undo_log.length := by
    rw [hcommit, ← hb]
  have hcount : (applyEdits s ops).undo_log.length - s.undo_log.length = P.length := by
    rw [hlog]
    simp
  rw [hstep, huntil, hcount, undo_pop_loop_spec P (applyEdits s ops) s.undo_log hlog]
  exact MapEq_trans (MapEq_of_fields rfl rfl) hmap

/-- Witness for claim C1 (amended) at a concrete input: the empty world, one
added voxel, one commit, one undo. -/
theorem claim_C1_roundtrip_undo_witness :
    MapEq ((undo_last_action (commit_changes
      (applyEdits new_empty [.add ⟨1, 0, 0⟩ .gray]) ⟨[]⟩)).1) new_empty := by
  apply claim_C1_roundtrip_undo new_empty [.add ⟨1, 0, 0⟩ .gray] ⟨[]⟩ rfl
  intro pre mat post h
  rcases pre with _ | ⟨p, pre⟩
  · simp [IVec3.zero] at h
  · simp at h

/-! ## Claim C2: protected origin -/

/-- Claim C2: if the origin cell is present, `remove_voxel` at `IVec3::ZERO`
leaves it present, whatever the symmetry setting (in fact the whole call is a
no-op: the primitive removal hits the origin guard and `apply_symmetry`
returns nothing for the centre column). -/
theorem claim_C2_protected_origin (s : Voxels) (h : has_voxel s IVec3.zero = true) :
    has_voxel (remove_voxel s IVec3.zero) IVec3.zero = true := by
  have h1 : remove_voxel_internal s IVec3.zero = s := by
    unfold remove_voxel_internal
    simp
  have h2 : apply_symmetry s IVec3.zero = none := by
    unfold apply_symmetry
    simp [IVec3.xz, IVec3.zero]
  have h3 : remove_voxel s IVec3.zero = s := by
    unfold remove_voxel
    rw [h1, h2]
  rw [h3]
  exact h

/-- Witness for claim C2 at a concrete input. -/
theorem claim_C2_protected_origin_witness :
    has_voxel (remove_voxel (add_voxel new_empty IVec3.zero .gray) IVec3.zero)
      IVec3.zero = true :=
  claim_C2_protected_origin (add_voxel new_empty IVec3.zero .gray) (by decide)

/-! ## Claim C4: symmetry pairing -/

/-- Claim C4: with rotation symmetry, adding `red` at `(x,y,z)` off the
centre column makes `get_material (-x,y,-z)` return `blue` and vice versa;
adding or removing on the centre column `(0,y,0)` changes no other
coordinate's material. -/
theorem claim_C4_symmetry_pairing (s : Voxels) (x y z : Int) (m : Material)
    (hsym : s.symmetry = .rotation) :
    (¬(x = 0 ∧ z = 0) →
      get_material (add_voxel s ⟨x, y, z⟩ .red) ⟨-x, y, -z⟩ = some .blue
      ∧ get_material (add_voxel s ⟨x, y, z⟩ .blue) ⟨-x, y, -z⟩ = some .red)
    ∧ (∀ c : IVec3, c ≠ ⟨0, y, 0⟩ →
      get_material (add_voxel s ⟨0, y, 0⟩ m) c = get_material s c
      ∧ get_material (remove_voxel s ⟨0, y, 0⟩) c = get_material s c) := by
  constructor
  · intro hxz
    constructor
    · simpa using get_material_add_voxel_mirror s x y z .red hsym hxz
    · simpa using get_material_add_voxel_mirror s x y z .blue hsym hxz
  · intro c hc
    have hxz0 : (⟨0, y, 0⟩ : IVec3).xz = (⟨0, 0⟩ : IVec2) := rfl
    constructor
    · have happly : apply_symmetry (add_voxel_internal s ⟨0, y, 0⟩ m) ⟨0, y, 0⟩ = none := by
        unfold apply_symmetry
        rw [hxz0]
        simp
      unfold add_voxel
      simp only [happly]
      exact get_material_add_voxel_internal_ne s m hc
    · have happly : apply_symmetry (remove_voxel_internal s ⟨0, y, 0⟩) ⟨0, y, 0⟩ = none := by
        unfold apply_symmetry
        rw [hxz0]
        simp
      unfold remove_voxel
      simp only [happly]
      exact get_material_remove_voxel_internal_ne s hc

/-- Witness for claim C4 at a concrete input. -/
theorem claim_C4_symmetry_pairing_witness :
    (¬((1 : Int) = 0 ∧ (3 : Int) = 0) →
      get_material (add_voxel new_empty ⟨1, 2, 3⟩ .red) ⟨-1, 2, -3⟩ = some .blue
      ∧ get_material (add_voxel new_empty ⟨1, 2, 3⟩ .blue) ⟨-1, 2, -3⟩ = some .red)
    ∧ (∀ c : IVec3, c ≠ ⟨0, 2, 0⟩ →
      get_material (add_voxel new_empty ⟨0, 2, 0⟩ .gray) c = get_material new_empty c
      ∧ get_material (remove_voxel new_empty ⟨0, 2, 0⟩) c = get_material new_empty c) :=
  claim_C4_symmetry_pairing new_empty 1 2 3 .gray rfl

/-! ## Claim C8: has_changes_to_commit -/

/-- Claim C8 (counterexample): on a freshly created world with no edits and
no commit boundaries, `has_changes_to_commit` returns `true`, not `false` as
the claim states (the source maps an empty boundary stack to `true` via
`unwrap_or(true)`). -/
theorem claim_C8_has_changes_counterexample :
    has_changes_to_commit new_empty = true := by
  decide

/-- Claim C8 (amended): `has_changes_to_commit` returns `false` exactly when
a commit boundary exists and the top boundary's index equals the current
undo-log length; in particular it returns `false` immediately after
`commit_changes` and `true` (not `false`) on a freshly created world. -/
theorem claim_C8_has_changes_to_commit (s : Voxels) (st : CommittedEditorState) :
    (has_changes_to_commit s = false ↔
      ∃ st', s.undo_commit_indexes.head? = some (s.undo_log.length, st'))
    ∧ has_changes_to_commit (commit_changes s st) = false
    ∧ has_changes_to_commit new_empty = true := by
  refine ⟨?_, ?_, rfl⟩
  · unfold has_changes_to_commit
    cases h : s.undo_commit_indexes.head? with
    | none => simp
    | some p =>
      simp only [decide_eq_false_iff_not, ne_eq, not_not, Option.some_inj]
      constructor
      · intro h1
        exact ⟨p.2, by rw [← h1]⟩
      · rintro ⟨st', hp⟩
        rw [hp]
  · unfold has_changes_to_commit commit_changes
    simp

/-! ## Claim C10: undo with no recorded boundary -/

/-- Claim C10: when no commit boundary is recorded, `undo_last_action`
applies every entry of the undo log (newest first, down to the start), leaves
the undo log empty, and returns the empty snapshot (whose selection is the
empty list). -/
theorem claim_C10_undo_without_boundary (s : Voxels)
    (h : s.undo_commit_indexes = []) :
    (undo_last_action s).1 = { undoList s.undo_log s with undo_log := [] }
    ∧ (undo_last_action s).2 = EMPTY_EDITOR_STATE
    ∧ (undo_last_action s).2.selection = [] := by
  obtain ⟨sym, fill, shift, log, esb, uci⟩ := s
  replace h : uci = [] := h
  subst h
  have h1 : undo_last_action ⟨sym, fill, shift, log, esb, []⟩
      = (undo_pop_loop (log.length - 0) ⟨sym, fill, shift, log, esb, []⟩,
          EMPTY_EDITOR_STATE) := rfl
  rw [h1]
  refine ⟨?_, rfl, rfl⟩
  have h2 := undo_pop_loop_spec log ⟨sym, fill, shift, log, esb, []⟩ []
    (by simp)
  simpa using h2

/-- Witness for claim C10 at a concrete input: a world with two uncommitted
voxel additions (the symmetric pair of one `add_voxel`). -/
theorem claim_C10_undo_without_boundary_witness :
    ((undo_last_action (add_voxel new_empty ⟨1, 0, 0⟩ .gray)).1
        = { undoList (add_voxel new_empty ⟨1, 0, 0⟩ .gray).undo_log
              (add_voxel new_empty ⟨1, 0, 0⟩ .gray) with undo_log := [] }
      ∧ (undo_last_action (add_voxel new_empty ⟨1, 0, 0⟩ .gray)).2 = EMPTY_EDITOR_STATE
      ∧ (undo_last_action (add_voxel new_empty ⟨1, 0, 0⟩ .gray)).2.selection = []) :=
  claim_C10_undo_without_boundary (add_voxel new_empty ⟨1, 0, 0⟩ .gray) (by decide)

/-! ## Claim C9: commit-boundary stack invariant -/

/-- The commit-boundary stack invariant: read from the top of the stack (the
list head) downwards the recorded indexes are non-increasing — equivalently,
non-decreasing from bottom to top — and every recorded index is at most the
current undo-log length. -/
def CommitStackInv (s : Voxels) : Prop :=
  List.Pairwise (fun a b => b.1 ≤ a.1) s.undo_commit_indexes
  ∧ ∀ p ∈ s.undo_commit_indexes, p.1 ≤ s.undo_log.length

/-- States reachable from the empty world through the five public mutating
operations. -/
inductive Reachable : Voxels → Prop where
  | empty : Reachable new_empty
  | add (s : Voxels) (v : IVec3) (m : Material) :
      Reachable s → Reachable (add_voxel s v m)
  | remove (s : Voxels) (v : IVec3) : Reachable s → Reachable (remove_voxel s v)
  | shift (s : Voxels) (c : IVec2) (a : Int) :
      Reachable s → Reachable (shift_column s c a)
  | commit (s : Voxels) (st : CommittedEditorState) :
      Reachable s → Reachable (commit_changes s st)
  | undo (s : Voxels) : Reachable s → Reachable (undo_last_action s).1

/-- The state `t` is `s` with extra undo-log entries pushed on top and an
unchanged commit-boundary stack (true of every edit primitive, with no
side conditions). -/
def LogExtends (s t : Voxels) : Prop :=
  (∃ P, t.undo_log = P ++ s.undo_log)
  ∧ t.undo_commit_indexes = s.undo_commit_indexes

theorem LogExtends_refl (s : Voxels) : LogExtends s s := ⟨⟨[], rfl⟩, rfl⟩

theorem LogExtends_trans {s t u : Voxels} (h1 : LogExtends s t) (h2 : LogExtends t u) :
    LogExtends s u := by
  obtain ⟨⟨P1, hP1⟩, hc1⟩ := h1
  obtain ⟨⟨P2, hP2⟩, hc2⟩ := h2
  exact ⟨⟨P2 ++ P1, by rw [hP2, hP1, List.append_assoc]⟩, hc2.trans hc1⟩

theorem LogExtends_remove_voxel_internal (s : Voxels) (v : IVec3) :
    LogExtends s (remove_voxel_internal s v) := by
  unfold remove_voxel_internal
  split
  · exact LogExtends_refl s
  · split
    · exact LogExtends_refl s
    · exact ⟨⟨[.reinsert v _], rfl⟩, rfl⟩

theorem LogExtends_add_voxel_internal (s : Voxels) (v : IVec3) (m : Material) :
    LogExtends s (add_voxel_internal s v m) :=
  LogExtends_trans (LogExtends_remove_voxel_internal s v)
    ⟨⟨[.delete v], rfl⟩, rfl⟩

theorem LogExtends_shift_column_internal (s : Voxels) (c : IVec2) (a : Int) :
    LogExtends s (shift_column_internal s c a) :=
  ⟨⟨[.unshift c a], rfl⟩, rfl⟩

theorem LogExtends_add_voxel (s : Voxels) (v : IVec3) (m : Material) :
    LogExtends s (add_voxel s v m) := by
  unfold add_voxel
  split
  · exact LogExtends_add_voxel_internal s v m
  · exact LogExtends_trans (LogExtends_add_voxel_internal s v m)
      (LogExtends_add_voxel_internal _ _ _)

theorem LogExtends_remove_voxel (s : Voxels) (v : IVec3) :
    LogExtends s (remove_voxel s v) := by
  unfold remove_voxel
  split
  · exact LogExtends_remove_voxel_internal s v
  · exact LogExtends_trans (LogExtends_remove_voxel_internal s v)
      (LogExtends_remove_voxel_internal _ _)

theorem LogExtends_shift_column (s : Voxels) (c : IVec2) (a : Int) :
    LogExtends s (shift_column s c a) := by
  unfold shift_column
  split
  · exact LogExtends_shift_column_internal s c a
  · exact LogExtends_trans (LogExtends_shift_column_internal s c a)
      (LogExtends_shift_column_internal _ _ _)

theorem CommitStackInv_of_LogExtends {s t : Voxels} (h : LogExtends s t)
    (hi : CommitStackInv s) : CommitStackInv t := by
  obtain ⟨⟨P, hP⟩, hc⟩ := h
  constructor
  · rw [hc]
    exact hi.1
  · intro p hp
    rw [hc] at hp
    calc p.1 ≤ s.undo_log.length := hi.2 p hp
      _ ≤ t.undo_log.length := by rw [hP]; simp

theorem CommitStackInv_new_empty : CommitStackInv new_empty := by
  constructor
  · exact List.Pairwise.nil
  · intro p hp
    simp [new_empty] at hp

theorem CommitStackInv_commit (s : Voxels) (st : CommittedEditorState)
    (hi : CommitStackInv s) : CommitStackInv (commit_changes s st) := by
  constructor
  · show List.Pairwise _ ((s.undo_log.length, st) :: s.undo_commit_indexes)
    rw [List.pairwise_cons]
    exact ⟨fun p hp => hi.2 p hp, hi.1⟩
  · intro p hp
    rcases List.mem_cons.mp hp with h1 | h1
    · rw [h1]
      exact Nat.le_refl _
    · exact hi.2 p h1

theorem undo_pop_loop_commit_indexes (n : Nat) :
    ∀ s : Voxels, (undo_pop_loop n s).undo_commit_indexes = s.undo_commit_indexes := by
  induction n with
  | zero => intro s; rfl
  | succ n ih =>
    intro s
    unfold undo_pop_loop
    cases hl : s.undo_log with
    | nil => rfl
    | cons f rest =>
      rw [ih, apply_undo_action_commit_indexes]

theorem undo_pop_loop_log_length (n : Nat) :
    ∀ s : Voxels, (undo_pop_loop n s).undo_log.length = s.undo_log.length - n := by
  induction n with
  | zero => intro s; simp [undo_pop_loop]
  | succ n ih =>
    intro s
    unfold undo_pop_loop
    cases hl : s.undo_log with
    | nil => simp [hl]
    | cons f rest =>
      rw [ih, apply_undo_action_undo_log]
      simp only [hl, List.length_cons]
      omega

theorem CommitStackInv_undo (s : Voxels) (hi : CommitStackInv s) :
    CommitStackInv (undo_last_action s).1 := by
  obtain ⟨sym, fill, shift, log, esb, uci⟩ := s
  cases uci with
  | nil =>
    have hr : (undo_last_action (⟨sym, fill, shift, log, esb, []⟩ : Voxels)).1
        = undo_pop_loop (log.length - 0) ⟨sym, fill, shift, log, esb, []⟩ := rfl
    rw [hr]
    constructor
    · rw [undo_pop_loop_commit_indexes]
      exact List.Pairwise.nil
    · intro p hp
      rw [undo_pop_loop_commit_indexes] at hp
      simp at hp
  | cons head rest =>
    obtain ⟨i, st0⟩ := head
    replace hi : List.Pairwise (fun a b => b.1 ≤ a.1) ((i, st0) :: rest)
        ∧ ∀ p ∈ (i, st0) :: rest, p.1 ≤ log.length := hi
    rw [List.pairwise_cons] at hi
    obtain ⟨⟨hall, hrest⟩, hbound⟩ := hi
    have hr : (undo_last_action
          (⟨sym, fill, shift, log, esb, (i, st0) :: rest⟩ : Voxels)).1
        = undo_pop_loop (log.length - ((rest.head?.map Prod.fst).getD 0))
            ⟨sym, fill, shift, log, esb, rest⟩ := rfl
    rw [hr]
    constructor
    · rw [undo_pop_loop_commit_indexes]
      exact hrest
    · intro p hp
      rw [undo_pop_loop_commit_indexes] at hp
      rw [undo_pop_loop_log_length]
      replace hp : p ∈ rest := hp
      cases rest with
      | nil => simp at hp
      | cons q rest2 =>
        have hu : (((q :: rest2).head?.map Prod.fst)).getD 0 = q.1 := rfl
        rw [hu]
        have hq_le : q.1 ≤ i := hall q (by simp)
        have hi_le : i ≤ log.length := hbound (i, st0) (by simp)
        have hple : p.1 ≤ q.1 := by
          rcases List.mem_cons.mp hp with h1 | h1
          · rw [h1]
          · rw [List.pairwise_cons] at hrest
            exact hrest.1 p h1
        show p.1 ≤ log.length - (log.length - q.1)
        omega

/-- Claim C9: every state reachable from the empty world through
`add_voxel`, `remove_voxel`, `shift_column`, `commit_changes` and
`undo_last_action` satisfies the commit-boundary stack invariant (indexes
non-decreasing from bottom to top, each at most the undo-log length), and
each of the five operations preserves the invariant. -/
theorem claim_C9_commit_stack_invariant :
    (∀ s, Reachable s → CommitStackInv s)
    ∧ (∀ (s : Voxels) (v : IVec3) (m : Material),
        CommitStackInv s → CommitStackInv (add_voxel s v m))
    ∧ (∀ (s : Voxels) (v : IVec3),
        CommitStackInv s → CommitStackInv (remove_voxel s v))
    ∧ (∀ (s : Voxels) (c : IVec2) (a : Int),
        CommitStackInv s → CommitStackInv (shift_column s c a))
    ∧ (∀ (s : Voxels) (st : CommittedEditorState),
        CommitStackInv s → CommitStackInv (commit_changes s st))
    ∧ (∀ s : Voxels, CommitStackInv s → CommitStackInv (undo_last_action s).1) := by
  refine ⟨?_,
    fun s v m hi => CommitStackInv_of_LogExtends (LogExtends_add_voxel s v m) hi,
    fun s v hi => CommitStackInv_of_LogExtends (LogExtends_remove_voxel s v) hi,
    fun s c a hi => CommitStackInv_of_LogExtends (LogExtends_shift_column s c a) hi,
    fun s st hi => CommitStackInv_commit s st hi,
    fun s hi => CommitStackInv_undo s hi⟩
  intro s hr
  induction hr with
  | empty => exact CommitStackInv_new_empty
  | add s v m _ ih => exact CommitStackInv_of_LogExtends (LogExtends_add_voxel s v m) ih
  | remove s v _ ih => exact CommitStackInv_of_LogExtends (LogExtends_remove_voxel s v) ih
  | shift s c a _ ih => exact CommitStackInv_of_LogExtends (LogExtends_shift_column s c a) ih
  | commit s st _ ih => exact CommitStackInv_commit s st ih
  | undo s _ ih => exact CommitStackInv_undo s ih

/-- Witness for claim C9 at a concrete input: a reachable two-step state. -/
theorem claim_C9_commit_stack_invariant_witness :
    CommitStackInv (commit_changes (add_voxel new_empty ⟨1, 0, 0⟩ .red) ⟨[]⟩) :=
  claim_C9_commit_stack_invariant.2.2.2.2.1 (add_voxel new_empty ⟨1, 0, 0⟩ .red) ⟨[]⟩
    (claim_C9_commit_stack_invariant.1 _ (Reachable.add _ _ _ Reachable.empty))

end Voxels

/-! ## Planar geometry primitives (src/geometry_utils.rs), over exact rationals

The source computes in `f32`; the embedding idealises that as exact rational
arithmetic.  The only square roots the embedded functions need are either
cancelled exactly (projections divide by `|q - p|` twice, giving `|q - p|²`)
or compared against nonnegative constants (where `sqrt x < c` is replaced by
the equivalent `x < c²`). -/

/-- 2D vector of exact rationals (model of `glam::Vec2`). -/
structure Vec2Q where
  x : ℚ
  y : ℚ
deriving DecidableEq, Repr

namespace Vec2Q

/-- Componentwise subtraction. -/
def sub (a b : Vec2Q) : Vec2Q := ⟨a.x - b.x, a.y - b.y⟩

/-- Componentwise addition. -/
def addv (a b : Vec2Q) : Vec2Q := ⟨a.x + b.x, a.y + b.y⟩

/-- Scalar multiple. -/
def scale (t : ℚ) (a : Vec2Q) : Vec2Q := ⟨t * a.x, t * a.y⟩

/-- Dot product. -/
def dot (a b : Vec2Q) : ℚ := a.x * b.x + a.y * b.y

/-- `Vec2::perp_dot`: the 2D cross product `a.x * b.y - a.y * b.x`. -/
def perp_dot (a b : Vec2Q) : ℚ := a.x * b.y - a.y * b.x

/-- Squared distance between two points (`distance` squared; the source's
`distance` is only ever compared against nonnegative constants, which is done
on squares here). -/
def distSq (a b : Vec2Q) : ℚ := dot (sub a b) (sub a b)

end Vec2Q

/-- Cast an integer grid point to a rational point (`IVec2::as_vec2`). -/
def IVec2.toVec2Q (p : IVec2) : Vec2Q := ⟨(p.x : ℚ), (p.y : ℚ)⟩

/-- `project_onto_v2(a, (p, q))`: the source computes
`(a - p).dot(normalize(q - p)) * normalize(q - p) + p`; the two unit-vector
factors combine to `(q - p) / |q - p|²`, so over exact reals the square root
cancels and the projection is `p + ((a-p)·(q-p) / (q-p)·(q-p)) (q-p)`. -/
def project_onto_v2 (a p q : Vec2Q) : Vec2Q :=
  Vec2Q.addv
    (Vec2Q.scale (Vec2Q.dot (Vec2Q.sub a p) (Vec2Q.sub q p)
        / Vec2Q.dot (Vec2Q.sub q p) (Vec2Q.sub q p))
      (Vec2Q.sub q p))
    p

/-- `point_closest_to_segment(p, line)`: project onto the infinite line, form
the interpolation parameter `t = (p_on_line - line.0)·d / distance(line.0, line.1)`
with `d` the unit direction — over exact reals
`(p_on_line - line.0)·(line.1 - line.0) / |line.1 - line.0|²` — clamp `t` to
`[0,1]` and interpolate `line.0.lerp(line.1, t)`. -/
def point_closest_to_segment (p l0 l1 : Vec2Q) : Vec2Q :=
  let p_on_line := project_onto_v2 p l0 l1
  let t := Vec2Q.dot (Vec2Q.sub p_on_line l0) (Vec2Q.sub l1 l0)
    / Vec2Q.dot (Vec2Q.sub l1 l0) (Vec2Q.sub l1 l0)
  Vec2Q.addv l0 (Vec2Q.scale (max 0 (min 1 t)) (Vec2Q.sub l1 l0))

/-- `segments_cross(a, b)`: solve the 2×2 system with perpendicular-dot
products; exactly-parallel direction vectors (perp-dot zero, no epsilon) give
`false`, otherwise the result is whether both interpolation parameters lie in
the closed unit interval. -/
def segments_cross (a b : Vec2Q × Vec2Q) : Bool :=
  let r := Vec2Q.sub a.2 a.1
  let s := Vec2Q.sub b.2 b.1
  let pq := Vec2Q.sub b.1 a.1
  let rxs := Vec2Q.perp_dot r s
  if rxs = 0 then false
  else
    let t := Vec2Q.perp_dot pq s / rxs
    let u := Vec2Q.perp_dot pq r / rxs
    decide (0 ≤ t ∧ t ≤ 1) && decide (0 ≤ u ∧ u ≤ 1)

/-- `signed_polygon_area_2d`: the shoelace sum, halved; `0` for two or fewer
points. -/
def signed_polygon_area_2d (points : List Vec2Q) : ℚ :=
  if points.length ≤ 2 then 0
  else
    ((List.range points.length).foldl
      (fun sum i =>
        sum + ((points.getD i ⟨0, 0⟩).y + (points.getD ((i + 1) % points.length) ⟨0, 0⟩).y)
            * ((points.getD i ⟨0, 0⟩).x - (points.getD ((i + 1) % points.length) ⟨0, 0⟩).x))
      0) * (1 / 2)

theorem perp_dot_swap (x y : Vec2Q) : Vec2Q.perp_dot y x = -Vec2Q.perp_dot x y := by
  simp only [Vec2Q.perp_dot]
  ring

theorem perp_dot_sub_swap (x y z : Vec2Q) :
    Vec2Q.perp_dot (Vec2Q.sub x y) z = -Vec2Q.perp_dot (Vec2Q.sub y x) z := by
  simp only [Vec2Q.perp_dot, Vec2Q.sub]
  ring

/-- Claim C7: `segments_cross` is symmetric in its two segments; it returns
`false` whenever the perp-dot of the two direction vectors is exactly zero
(parallel or collinear, no epsilon); otherwise it returns `true` exactly when
both interpolation parameters lie in the closed interval `[0,1]`. -/
theorem claim_C7_segments_cross (a b : Vec2Q × Vec2Q) :
    (segments_cross a b = segments_cross b a)
    ∧ (Vec2Q.perp_dot (Vec2Q.sub a.2 a.1) (Vec2Q.sub b.2 b.1) = 0 →
        segments_cross a b = false)
    ∧ (Vec2Q.perp_dot (Vec2Q.sub a.2 a.1) (Vec2Q.sub b.2 b.1) ≠ 0 →
        (segments_cross a b = true ↔
          (0 ≤ Vec2Q.perp_dot (Vec2Q.sub b.1 a.1) (Vec2Q.sub b.2 b.1)
              / Vec2Q.perp_dot (Vec2Q.sub a.2 a.1) (Vec2Q.sub b.2 b.1)
          ∧ Vec2Q.perp_dot (Vec2Q.sub b.1 a.1) (Vec2Q.sub b.2 b.1)
              / Vec2Q.perp_dot (Vec2Q.sub a.2 a.1) (Vec2Q.sub b.2 b.1) ≤ 1
          ∧ 0 ≤ Vec2Q.perp_dot (Vec2Q.sub b.1 a.1) (Vec2Q.sub a.2 a.1)
              / Vec2Q.perp_dot (Vec2Q.sub a.2 a.1) (Vec2Q.sub b.2 b.1)
          ∧ Vec2Q.perp_dot (Vec2Q.sub b.1 a.1) (Vec2Q.sub a.2 a.1)
              / Vec2Q.perp_dot (Vec2Q.sub a.2 a.1) (Vec2Q.sub b.2 b.1) ≤ 1))) := by
  have hswap : Vec2Q.perp_dot (Vec2Q.sub b.2 b.1) (Vec2Q.sub a.2 a.1)
      = -Vec2Q.perp_dot (Vec2Q.sub a.2 a.1) (Vec2Q.sub b.2 b.1) := perp_dot_swap _ _
  refine ⟨?_, ?_, ?_⟩
  · by_cases hz : Vec2Q.perp_dot (Vec2Q.sub a.2 a.1) (Vec2Q.sub b.2 b.1) = 0
    · have hz' : Vec2Q.perp_dot (Vec2Q.sub b.2 b.1) (Vec2Q.sub a.2 a.1) = 0 := by
        rw [hswap, hz, neg_zero]
      simp only [segments_cross]
      rw [if_pos hz, if_pos hz']
    · have hz' : Vec2Q.perp_dot (Vec2Q.sub b.2 b.1) (Vec2Q.sub a.2 a.1) ≠ 0 := by
        rw [hswap]
        exact neg_ne_zero.mpr hz
      simp only [segments_cross]
      rw [if_neg hz, if_neg hz']
      have ht : Vec2Q.perp_dot (Vec2Q.sub a.1 b.1) (Vec2Q.sub a.2 a.1)
            / Vec2Q.perp_dot (Vec2Q.sub b.2 b.1) (Vec2Q.sub a.2 a.1)
          = Vec2Q.perp_dot (Vec2Q.sub b.1 a.1) (Vec2Q.sub a.2 a.1)
            / Vec2Q.perp_dot (Vec2Q.sub a.2 a.1) (Vec2Q.sub b.2 b.1) := by
        rw [perp_dot_sub_swap a.1 b.1, hswap]
        exact neg_div_neg_eq _ _
      have hu : Vec2Q.perp_dot (Vec2Q.sub a.1 b.1) (Vec2Q.sub b.2 b.1)
            / Vec2Q.perp_dot (Vec2Q.sub b.2 b.1) (Vec2Q.sub a.2 a.1)
          = Vec2Q.perp_dot (Vec2Q.sub b.1 a.1) (Vec2Q.sub b.2 b.1)
            / Vec2Q.perp_dot (Vec2Q.sub a.2 a.1) (Vec2Q.sub b.2 b.1) := by
        rw [perp_dot_sub_swap a.1 b.1, hswap]
        exact neg_div_neg_eq _ _
      rw [ht, hu]
      exact (Bool.and_comm _ _)
  · intro hz
    simp only [segments_cross]
    rw [if_pos hz]
  · intro hz
    simp only [segments_cross]
    rw [if_neg hz]
    simp only [Bool.and_eq_true, decide_eq_true_eq]
    constructor
    · rintro ⟨⟨h1, h2⟩, h3, h4⟩
      exact ⟨h1, h2, h3, h4⟩
    · rintro ⟨h1, h2, h3, h4⟩
      exact ⟨⟨h1, h2⟩, h3, h4⟩

/-- Witness for claim C7 at a concrete input: two crossing diagonals of a
square (perp-dot of the directions is `-8`). -/
theorem claim_C7_segments_cross_witness :
    segments_cross (⟨⟨0, 0⟩, ⟨2, 2⟩⟩ : Vec2Q × Vec2Q) (⟨⟨0, 2⟩, ⟨2, 0⟩⟩ : Vec2Q × Vec2Q)
        = true ↔
      (0 ≤ Vec2Q.perp_dot (Vec2Q.sub ⟨0, 2⟩ ⟨0, 0⟩) (Vec2Q.sub ⟨2, 0⟩ ⟨0, 2⟩)
          / Vec2Q.perp_dot (Vec2Q.sub ⟨2, 2⟩ ⟨0, 0⟩) (Vec2Q.sub ⟨2, 0⟩ ⟨0, 2⟩)
      ∧ Vec2Q.perp_dot (Vec2Q.sub ⟨0, 2⟩ ⟨0, 0⟩) (Vec2Q.sub ⟨2, 0⟩ ⟨0, 2⟩)
          / Vec2Q.perp_dot (Vec2Q.sub ⟨2, 2⟩ ⟨0, 0⟩) (Vec2Q.sub ⟨2, 0⟩ ⟨0, 2⟩) ≤ 1
      ∧ 0 ≤ Vec2Q.perp_dot (Vec2Q.sub ⟨0, 2⟩ ⟨0, 0⟩) (Vec2Q.sub ⟨2, 2⟩ ⟨0, 0⟩)
          / Vec2Q.perp_dot (Vec2Q.sub ⟨2, 2⟩ ⟨0, 0⟩) (Vec2Q.sub ⟨2, 0⟩ ⟨0, 2⟩)
      ∧ Vec2Q.perp_dot (Vec2Q.sub ⟨0, 2⟩ ⟨0, 0⟩) (Vec2Q.sub ⟨2, 2⟩ ⟨0, 0⟩)
          / Vec2Q.perp_dot (Vec2Q.sub ⟨2, 2⟩ ⟨0, 0⟩) (Vec2Q.sub ⟨2, 0⟩ ⟨0, 2⟩) ≤ 1) :=
  (claim_C7_segments_cross (⟨⟨0, 0⟩, ⟨2, 2⟩⟩ : Vec2Q × Vec2Q)
    (⟨⟨0, 2⟩, ⟨2, 0⟩⟩ : Vec2Q × Vec2Q)).2.2 (by norm_num [Vec2Q.perp_dot, Vec2Q.sub])

/-! ## Building outlines (src/building.rs) and the editor world (src/editor_state.rs) -/

/-- `BUILDING_WALL_THICKNESS = 0.125`. -/
def BUILDING_WALL_THICKNESS : ℚ := 1 / 8

/-- `MIN_EXTENDED = 0.45`. -/
def MIN_EXTENDED : ℚ := 9 / 20

/-- `MIN_INTERIOR_THICKNESS = 0.5`. -/
def MIN_INTERIOR_THICKNESS : ℚ := 1 / 2

/-- A corner of an outline (`struct Corner`). -/
structure Corner where
  a : IVec2
  pivot : IVec2
  b : IVec2
deriving DecidableEq, Repr

/-- `is_corner_too_sharp`: the source computes
`angle = acos(normalize(a - pivot) · normalize(b - pivot))` and reports the
corner too sharp when `BUILDING_WALL_THICKNESS / sin(angle / 2) ≥ MIN_EXTENDED`.
Over exact reals, writing `u = a - pivot`, `v = b - pivot` (both nonzero) and
`c = u·v / (|u||v|)`, one has `sin(angle/2) = sqrt((1 - c)/2)`, so the test is
equivalent to `c ≥ 1 - 2·(T/M)² = 137/162`, i.e. to the exact integer
comparison `u·v ≥ 0 ∧ 162²·(u·v)² ≥ 137²·|u|²·|v|²`.  When `u` or `v` is zero
the source's `normalize` produces NaN, every comparison on NaN is false and
the corner is not reported too sharp; that case is made explicit here. -/
def is_corner_too_sharp (corner : Corner) : Bool :=
  let ux := corner.a.x - corner.pivot.x
  let uy := corner.a.y - corner.pivot.y
  let vx := corner.b.x - corner.pivot.x
  let vy := corner.b.y - corner.pivot.y
  if (ux = 0 ∧ uy = 0) ∨ (vx = 0 ∧ vy = 0) then false
  else
    decide (0 ≤ ux * vx + uy * vy) &&
      decide (137 ^ 2 * ((ux ^ 2 + uy ^ 2) * (vx ^ 2 + vy ^ 2))
        ≤ 162 ^ 2 * (ux * vx + uy * vy) ^ 2)

/-- A stored building: floor height and outline (`struct Building`). -/
structure Building where
  floor_y : Int
  outline : List IVec2
deriving DecidableEq, Repr

/-- `struct BuildingValidity`. -/
structure BuildingValidity where
  allow_one_point : Bool
  allow_two_points : Bool
deriving DecidableEq, Repr

/-- `BuildingValidity::default()`: both relaxations off. -/
def BuildingValidity.default : BuildingValidity := ⟨false, false⟩

/-- `Building::is_valid`: the checks run in source order with early return —
point-count gates, corner sharpness, duplicate points, points near
non-incident edges, crossing edges, and strictly positive signed area.  The
source's `distance < MIN_INTERIOR_THICKNESS` comparison (an f32 square root)
is expressed as the exact equivalent `distSq < MIN_INTERIOR_THICKNESS²`. -/
def Building.is_valid (bld : Building) (options : BuildingValidity) : Bool :=
  let len := bld.outline.length
  if decide (len = 1) && !options.allow_one_point then false
  else if decide (len = 2) && !options.allow_two_points then false
  else if decide (3 ≤ len) &&
      (List.range len).any (fun pivot_index =>
        is_corner_too_sharp
          { a := bld.outline.getD ((pivot_index + len - 1) % len) ⟨0, 0⟩
            pivot := bld.outline.getD pivot_index ⟨0, 0⟩
            b := bld.outline.getD ((pivot_index + 1) % len) ⟨0, 0⟩ }) then false
  else if (List.range len).any (fun i => (List.range i).any (fun j =>
      decide (bld.outline.getD i ⟨0, 0⟩ = bld.outline.getD j ⟨0, 0⟩))) then false
  else if bld.outline.any (fun p => (List.range len).any (fun i =>
      let ea := bld.outline.getD i ⟨0, 0⟩
      let eb := bld.outline.getD ((i + 1) % len) ⟨0, 0⟩
      if ea = p ∨ eb = p then false
      else decide (Vec2Q.distSq
          (point_closest_to_segment p.toVec2Q ea.toVec2Q eb.toVec2Q) p.toVec2Q
        < MIN_INTERIOR_THICKNESS ^ 2))) then false
  else if (List.range len).any (fun i => (List.range len).any (fun j =>
      let a1 := bld.outline.getD i ⟨0, 0⟩
      let b1 := bld.outline.getD ((i + 1) % len) ⟨0, 0⟩
      let a2 := bld.outline.getD j ⟨0, 0⟩
      let b2 := bld.outline.getD ((j + 1) % len) ⟨0, 0⟩
      if a1 = a2 ∨ a1 = b2 ∨ b1 = a2 ∨ b1 = b2 then false
      else segments_cross (a1.toVec2Q, b1.toVec2Q) (a2.toVec2Q, b2.toVec2Q))) then false
  else if signed_polygon_area_2d (bld.outline.map IVec2.toVec2Q) ≤ 0 then false
  else true

/-- The editor tool (`enum EditorTool`). -/
inductive EditorTool where
  | createBuilding
  | selectBuilding
deriving DecidableEq, Repr

/-- The stored editor world (`struct EditorWorld` of `editor_state.rs`). -/
structure EditorWorld where
  buildings : List Building
  editor_tool : EditorTool
deriving DecidableEq, Repr

/-- `EditorWorld::set_building_point`: writes the new point into the stored
building, then `assert!`s that the mutated building is valid.  A Rust panic
(failed assertion or out-of-bounds index) is modelled as `Except.error`. -/
def EditorWorld.set_building_point (w : EditorWorld) (building point : Nat)
    (p : IVec2) : Except String EditorWorld :=
  match w.buildings[building]? with
  | none => .error "index out of bounds"
  | some bld =>
    if point < bld.outline.length then
      let bld2 := { bld with outline := bld.outline.set point p }
      if bld2.is_valid BuildingValidity.default then
        .ok { w with buildings := w.buildings.set building bld2 }
      else .error "assertion failed: building is not valid"
    else .error "index out of bounds"

/-- The dragging branch of `move_building_system` (`editor_actions.rs`): when
the dragged point differs from the mouse point, the handler mutates a clone,
checks `is_valid` on it, and only when valid calls `set_building_point`;
otherwise (invalid clone, or unmoved point) it does nothing. -/
def drag_update (w : EditorWorld) (building_index point_index : Nat)
    (mouse_point : IVec2) : Except String EditorWorld :=
  match w.buildings[building_index]? with
  | none => .error "index out of bounds"
  | some building =>
    match building.outline[point_index]? with
    | none => .error "index out of bounds"
    | some current =>
      if current ≠ mouse_point then
        if ({ building with
            outline := building.outline.set point_index mouse_point } : Building).is_valid
            BuildingValidity.default then
          w.set_building_point building_index point_index mouse_point
        else .ok w
      else .ok w

/-- Claim C3 (counterexample): an invalid single-point mutation applied
through `EditorWorld::set_building_point` is not silently rejected — the
method mutates first and then panics on the validity assertion.  Concretely,
moving point 1 of the stored square `[(0,0),(4,0),(4,4),(0,4)]` onto `(0,4)`
(a duplicate of point 3, which also creates a degenerate corner at `(0,0)`)
makes the mutated outline invalid, and the call panics (modelled as
`Except.error`) instead of leaving the building unchanged without exception. -/
theorem claim_C3_invalid_edit_counterexample :
    EditorWorld.set_building_point
        ⟨[⟨0, [⟨0, 0⟩, ⟨4, 0⟩, ⟨4, 4⟩, ⟨0, 4⟩]⟩], .selectBuilding⟩ 0 1 ⟨0, 4⟩
      = .error "assertion failed: building is not valid" := by
  rfl

/-- Claim C3 (amended): the live drag handler pre-validates the mutation on a
clone, so an invalid single-point mutation driven by dragging is silently
rejected: the editor world is returned unchanged and no panic is raised.
Calling `set_building_point` directly with an invalid mutation, however,
mutates and then panics (see the counterexample). -/
theorem claim_C3_invalid_edit_rejected (w : EditorWorld) (bi pi : Nat) (p : IVec2)
    (bld : Building) (hb : w.buildings[bi]? = some bld)
    (hpi : pi < bld.outline.length)
    (hinvalid : ({ bld with outline := bld.outline.set pi p } : Building).is_valid
        BuildingValidity.default = false) :
    drag_update w bi pi p = .ok w := by
  unfold drag_update
  simp only [hb]
  simp only [List.getElem?_eq_getElem hpi]
  by_cases hcur : bld.outline[pi] = p
  · rw [if_neg (by simpa using hcur)]
  · rw [if_pos (by simpa using hcur), hinvalid]
    simp

/-- Witness for claim C3 (amended) at a concrete input: the invalid mutation
of the counterexample, driven through the drag handler, leaves the world
unchanged. -/
theorem claim_C3_invalid_edit_rejected_witness :
    drag_update ⟨[⟨0, [⟨0, 0⟩, ⟨4, 0⟩, ⟨4, 4⟩, ⟨0, 4⟩]⟩], .selectBuilding⟩ 0 1 ⟨0, 4⟩
      = .ok ⟨[⟨0, [⟨0, 0⟩, ⟨4, 0⟩, ⟨4, 4⟩, ⟨0, 4⟩]⟩], .selectBuilding⟩ :=
  claim_C3_invalid_edit_rejected
    ⟨[⟨0, [⟨0, 0⟩, ⟨4, 0⟩, ⟨4, 4⟩, ⟨0, 4⟩]⟩], .selectBuilding⟩ 0 1 ⟨0, 4⟩
    ⟨0, [⟨0, 0⟩, ⟨4, 0⟩, ⟨4, 4⟩, ⟨0, 4⟩]⟩ rfl (by decide) (by rfl)

/-! ## Half-space solid kernel (src/csg.rs), over exact rationals -/

/-- 3D vector of exact rationals (model of `glam::Vec3`). -/
structure Vec3Q where
  x : ℚ
  y : ℚ
  z : ℚ
deriving DecidableEq, Repr

namespace Vec3Q

/-- Componentwise subtraction. -/
def sub (a b : Vec3Q) : Vec3Q := ⟨a.x - b.x, a.y - b.y, a.z - b.z⟩

/-- Componentwise negation. -/
def neg (a : Vec3Q) : Vec3Q := ⟨-a.x, -a.y, -a.z⟩

/-- Scalar multiple. -/
def scale (t : ℚ) (a : Vec3Q) : Vec3Q := ⟨t * a.x, t * a.y, t * a.z⟩

/-- Dot product. -/
def dot (a b : Vec3Q) : ℚ := a.x * b.x + a.y * b.y + a.z * b.z

/-- Cross product. -/
def cross (a b : Vec3Q) : Vec3Q :=
  ⟨a.y * b.z - a.z * b.y, a.z * b.x - a.x * b.z, a.x * b.y - a.y * b.x⟩

/-- `length_squared`. -/
def lengthSq (a : Vec3Q) : ℚ := dot a a

end Vec3Q

/-- The tolerance `EPSILON = 0.0001` of `csg.rs`. -/
def EPSILON : ℚ := 1 / 10000

/-- A cutting plane: a point and an outward normal (`struct CuttingPlane`). -/
structure CuttingPlane where
  point : Vec3Q
  normal : Vec3Q
deriving DecidableEq, Repr

/-- An infinite bidirectional line (`struct InfiniteLine`). -/
structure InfiniteLine where
  point : Vec3Q
  direction : Vec3Q
deriving DecidableEq, Repr

/-- `CuttingPlane::signed_distance`. -/
def CuttingPlane.signed_distance (pl : CuttingPlane) (point : Vec3Q) : ℚ :=
  Vec3Q.dot (Vec3Q.sub point pl.point) pl.normal

/-- `CuttingPlane::intersection_plane`: reject near-parallel normals, else
solve the 2×2 system in closed form.  The source's guard
`perp.length() < EPSILON` (an f32 square root) is expressed by the exact
equivalent `lengthSq perp < EPSILON²`, and the returned direction is kept as
the unnormalised `perp` (the source normalises it, which no claim observes
and which is not rational-valued).  The source `assert!`s that the computed
point lies on both planes within `EPSILON`; claim C6 proves the distances are
exactly zero. -/
def CuttingPlane.intersection_plane (p1 p2 : CuttingPlane) : Option InfiniteLine :=
  let perp := Vec3Q.cross p1.normal p2.normal
  if Vec3Q.lengthSq perp < EPSILON ^ 2 then none
  else
    some
      ⟨Vec3Q.scale (1 / Vec3Q.lengthSq perp)
        (Vec3Q.cross
          (Vec3Q.sub (Vec3Q.scale (Vec3Q.dot p2.normal p2.point) p1.normal)
            (Vec3Q.scale (Vec3Q.dot p1.normal p1.point) p2.normal))
          (Vec3Q.neg perp)),
      perp⟩

theorem intersection_point_zero (p1 p2 : CuttingPlane) (line : InfiniteLine)
    (hline : CuttingPlane.intersection_plane p1 p2 = some line) :
    CuttingPlane.signed_distance p1 line.point = 0
    ∧ CuttingPlane.signed_distance p2 line.point = 0 := by
  simp only [CuttingPlane.intersection_plane] at hline
  by_cases hlt : Vec3Q.lengthSq (Vec3Q.cross p1.normal p2.normal) < EPSILON ^ 2
  · rw [if_pos hlt] at hline
    simp at hline
  · rw [if_neg hlt] at hline
    have hL : Vec3Q.lengthSq (Vec3Q.cross p1.normal p2.normal) ≠ 0 := by
      have h0 : (0 : ℚ) < EPSILON ^ 2 := by norm_num [EPSILON]
      exact ne_of_gt (lt_of_lt_of_le h0 (not_lt.mp hlt))
    rw [Option.some_inj] at hline
    subst hline
    obtain ⟨⟨a1x, a1y, a1z⟩, ⟨n1x, n1y, n1z⟩⟩ := p1
    obtain ⟨⟨a2x, a2y, a2z⟩, ⟨n2x, n2y, n2z⟩⟩ := p2
    simp only [CuttingPlane.signed_distance, Vec3Q.scale, Vec3Q.cross, Vec3Q.sub,
      Vec3Q.neg, Vec3Q.dot, Vec3Q.lengthSq] at hL ⊢
    constructor
    · field_simp
      ring
    · field_simp
      ring

/-- Claim C6: for two cutting planes whose normals' cross product has squared
magnitude at least `EPSILON²` (the exact form of the source's
`perp.length() ≥ EPSILON`), `intersection_plane` returns a line, and the
computed intersection point satisfies both planes' zero-distance condition
exactly — in particular within `EPSILON`, so the two internal assertions
never fire; for smaller cross products it returns `None`. -/
theorem claim_C6_plane_intersection (p1 p2 : CuttingPlane) :
    (Vec3Q.lengthSq (Vec3Q.cross p1.normal p2.normal) < EPSILON ^ 2 →
      CuttingPlane.intersection_plane p1 p2 = none)
    ∧ (EPSILON ^ 2 ≤ Vec3Q.lengthSq (Vec3Q.cross p1.normal p2.normal) →
      ∃ line, CuttingPlane.intersection_plane p1 p2 = some line
        ∧ CuttingPlane.signed_distance p1 line.point = 0
        ∧ CuttingPlane.signed_distance p2 line.point = 0
        ∧ |CuttingPlane.signed_distance p1 line.point| ≤ EPSILON
        ∧ |CuttingPlane.signed_distance p2 line.point| ≤ EPSILON) := by
  constructor
  · intro hlt
    simp only [CuttingPlane.intersection_plane]
    rw [if_pos hlt]
  · intro hge
    have hsome : ∃ line, CuttingPlane.intersection_plane p1 p2 = some line := by
      simp only [CuttingPlane.intersection_plane]
      rw [if_neg (not_lt.mpr hge)]
      exact ⟨_, rfl⟩
    obtain ⟨line, hline⟩ := hsome
    obtain ⟨hz1, hz2⟩ := intersection_point_zero p1 p2 line hline
    refine ⟨line, hline, hz1, hz2, ?_, ?_⟩
    · rw [hz1]
      norm_num [EPSILON]
    · rw [hz2]
      norm_num [EPSILON]

/-- Witness for claim C6 at a concrete input: the planes `x = 0` and `y = 0`
(cross product of normals `(0,0,1)`, squared length `1`). -/
theorem claim_C6_plane_intersection_witness :
    ∃ line,
      CuttingPlane.intersection_plane ⟨⟨0, 0, 0⟩, ⟨1, 0, 0⟩⟩ ⟨⟨0, 0, 0⟩, ⟨0, 1, 0⟩⟩
          = some line
        ∧ CuttingPlane.signed_distance ⟨⟨0, 0, 0⟩, ⟨1, 0, 0⟩⟩ line.point = 0
        ∧ CuttingPlane.signed_distance ⟨⟨0, 0, 0⟩, ⟨0, 1, 0⟩⟩ line.point = 0
        ∧ |CuttingPlane.signed_distance ⟨⟨0, 0, 0⟩, ⟨1, 0, 0⟩⟩ line.point| ≤ EPSILON
        ∧ |CuttingPlane.signed_distance ⟨⟨0, 0, 0⟩, ⟨0, 1, 0⟩⟩ line.point| ≤ EPSILON :=
  (claim_C6_plane_intersection ⟨⟨0, 0, 0⟩, ⟨1, 0, 0⟩⟩ ⟨⟨0, 0, 0⟩, ⟨0, 1, 0⟩⟩).2
    (by norm_num [Vec3Q.cross, Vec3Q.lengthSq, Vec3Q.dot, EPSILON])

/-! ## The convex-hull pipeline of src/csg.rs, over exact rationals

`from_triangle` stores the *unit* normal `w.normalize()` of the rational
cross product `w`, and `from_points`/`simplify`/`vertices` only ever use that
normal inside signed distances that are then compared against `±EPSILON`.
Since the unit normal is irrational, the embedding keeps the unnormalised `w`
(the stored normal is `w/|w|`) and expresses every comparison of a signed
distance `t/√W` (with `t` rational and `W = |w|²`) through the exact rational
decision procedure `ltSqrt` below.  The intersection points themselves are
exactly rational: in the closed-form plane-plane intersection the `|w|`
factors cancel, and in the plane-line intersection the `|direction|` factor
cancels between the unit direction and the line parameter. -/

/-- Addition, needed by the plane-line intersection. -/
def Vec3Q.addv (a b : Vec3Q) : Vec3Q := ⟨a.x + b.x, a.y + b.y, a.z + b.z⟩

/-- Decides `t < c · √W` (for `0 ≤ W`) in exact rational arithmetic: for
`0 ≤ c` it is `t < 0 ∨ t² < c²·W`, for `c < 0` it is `t < 0 ∧ c²·W < t²`.
Every comparison the hull pipeline makes against an f32 signed distance
`t/√W` reduces to this shape (`ltSqrt_iff` proves the encoding correct). -/
def ltSqrt (t c W : ℚ) : Bool :=
  if 0 ≤ c then decide (t < 0) || decide (t ^ 2 < c ^ 2 * W)
  else decide (t < 0) && decide (c ^ 2 * W < t ^ 2)

/-- Correctness of the `ltSqrt` encoding against real arithmetic. -/
theorem ltSqrt_iff (t c W : ℚ) (hW : 0 ≤ W) :
    ltSqrt t c W = true ↔ (t : ℝ) < (c : ℝ) * Real.sqrt (W : ℝ) := by
  have hWr : (0 : ℝ) ≤ (W : ℝ) := by exact_mod_cast hW
  have hs : (0 : ℝ) ≤ Real.sqrt (W : ℝ) := Real.sqrt_nonneg _
  have hsq : Real.sqrt (W : ℝ) ^ 2 = (W : ℝ) := Real.sq_sqrt hWr
  unfold ltSqrt
  by_cases hc : (0 : ℚ) ≤ c
  · rw [if_pos hc]
    have hcr : (0 : ℝ) ≤ (c : ℝ) := by exact_mod_cast hc
    simp only [Bool.or_eq_true, decide_eq_true_eq]
    constructor
    · rintro (h | h)
      · have ht : (t : ℝ) < 0 := by exact_mod_cast h
        exact lt_of_lt_of_le ht (mul_nonneg hcr hs)
      · have h' : (t : ℝ) ^ 2 < ((c : ℝ) * Real.sqrt (W : ℝ)) ^ 2 := by
          rw [mul_pow, hsq]
          exact_mod_cast h
        by_cases ht : (t : ℝ) < 0
        · exact lt_of_lt_of_le ht (mul_nonneg hcr hs)
        · push_neg at ht
          nlinarith [h', mul_nonneg hcr hs, ht]
    · intro h
      by_cases ht : t < 0
      · exact Or.inl ht
      · right
        push_neg at ht
        have htr : (0 : ℝ) ≤ (t : ℝ) := by exact_mod_cast ht
        have h2 : (t : ℝ) ^ 2 < ((c : ℝ) * Real.sqrt (W : ℝ)) ^ 2 := by
          nlinarith [h, htr, mul_nonneg hcr hs]
        rw [mul_pow, hsq] at h2
        exact_mod_cast h2
  · rw [if_neg hc]
    push_neg at hc
    have hcr : (c : ℝ) < 0 := by exact_mod_cast hc
    simp only [Bool.and_eq_true, decide_eq_true_eq]
    constructor
    · rintro ⟨h1, h2⟩
      have h1r : (t : ℝ) < 0 := by exact_mod_cast h1
      have h2r : (c : ℝ) ^ 2 * (W : ℝ) < (t : ℝ) ^ 2 := by exact_mod_cast h2
      nlinarith [h1r, h2r, hsq, hs, mul_nonneg (neg_nonneg.mpr (le_of_lt hcr)) hs]
    · intro h
      have hcs : (c : ℝ) * Real.sqrt (W : ℝ) ≤ 0 :=
        mul_nonpos_of_nonpos_of_nonneg (le_of_lt hcr) hs
      have h1r : (t : ℝ) < 0 := lt_of_lt_of_le h hcs
      refine ⟨by exact_mod_cast h1r, ?_⟩
      have h2r : (c : ℝ) ^ 2 * (W : ℝ) < (t : ℝ) ^ 2 := by
        nlinarith [h, hsq, hs, h1r, hcs]
      exact_mod_cast h2r

/-- A plane produced by `CuttingPlane::from_triangle`: the source stores the
unit normal `w.normalize()`; the embedding keeps the unnormalised `w`, so the
stored normal is `w/|w|` and the signed distance to `p` is
`(p − point)·w / |w|`. -/
structure HullPlane where
  point : Vec3Q
  w : Vec3Q
deriving DecidableEq, Repr

namespace HullPlane

/-- Numerator `t = (p − point)·w` of the signed distance `t/|w|`. -/
def distT (pl : HullPlane) (p : Vec3Q) : ℚ :=
  Vec3Q.dot (Vec3Q.sub p pl.point) pl.w

/-- `W = |w|²`, the square of the signed distance's denominator. -/
def wSq (pl : HullPlane) : ℚ := Vec3Q.lengthSq pl.w

/-- Decides `signed_distance(p) < c` (that is `t/√W < c`). -/
def dist_lt (pl : HullPlane) (p : Vec3Q) (c : ℚ) : Bool :=
  ltSqrt (pl.distT p) c pl.wSq

/-- Decides `signed_distance(p) > c` (that is `-t/√W < -c`). -/
def dist_gt (pl : HullPlane) (p : Vec3Q) (c : ℚ) : Bool :=
  ltSqrt (-(pl.distT p)) (-c) pl.wSq

/-- Decides `|signed_distance(p)| ≤ c` for `0 ≤ c` (that is `t² ≤ c²·W`). -/
def abs_dist_le (pl : HullPlane) (p : Vec3Q) (c : ℚ) : Bool :=
  decide ((pl.distT p) ^ 2 ≤ c ^ 2 * pl.wSq)

/-- `CuttingPlane::flipped`: negate the normal. -/
def flipped (pl : HullPlane) : HullPlane := ⟨pl.point, Vec3Q.neg pl.w⟩

end HullPlane

/-- `CuttingPlane::from_triangle`: reject a near-zero edge
(`d.length() < EPSILON` as `lengthSq d < EPSILON²`), then reject a
near-collinear triple (the source tests `|d1̂ × d2̂| < EPSILON` on the
normalised edges, i.e. `|d1 × d2|² < EPSILON²·|d1|²·|d2|²`), else store the
plane through the first point (the source keeps `(d1 × d2).normalize()`,
represented by the unnormalised `d1 × d2`). -/
def from_triangle (a b c : Vec3Q) : Option HullPlane :=
  let d1 := Vec3Q.sub b a
  let d2 := Vec3Q.sub c a
  if Vec3Q.lengthSq d1 < EPSILON ^ 2 ∨ Vec3Q.lengthSq d2 < EPSILON ^ 2 then none
  else
    if Vec3Q.lengthSq (Vec3Q.cross d1 d2)
        < EPSILON ^ 2 * (Vec3Q.lengthSq d1 * Vec3Q.lengthSq d2) then none
    else some ⟨a, Vec3Q.cross d1 d2⟩

/-- An `InfiniteLine` of the hull pipeline: the source stores the unit
direction `perp.normalize()`; the embedding keeps the unnormalised `dir`. -/
structure HullLine where
  point : Vec3Q
  dir : Vec3Q
deriving DecidableEq, Repr

/-- `CuttingPlane::intersection_plane` on two `from_triangle` planes (unit
normals `wᵢ/|wᵢ|`): the parallel guard `|n1 × n2| < EPSILON` becomes
`|w1 × w2|² < EPSILON²·|w1|²·|w2|²`, and in the closed-form intersection
point the `|wᵢ|` factors cancel, leaving the rational
`[(w2·P2)·w1 − (w1·P1)·w2] × (−(w1 × w2)) / |w1 × w2|²`.  The source's two
assertions hold exactly here (claim C6 proves the same closed form exact). -/
def intersection_plane_n (p1 p2 : HullPlane) : Option HullLine :=
  let wp := Vec3Q.cross p1.w p2.w
  if Vec3Q.lengthSq wp < EPSILON ^ 2 * (Vec3Q.lengthSq p1.w * Vec3Q.lengthSq p2.w)
  then none
  else
    some ⟨Vec3Q.scale (1 / Vec3Q.lengthSq wp)
        (Vec3Q.cross
          (Vec3Q.sub (Vec3Q.scale (Vec3Q.dot p2.w p2.point) p1.w)
            (Vec3Q.scale (Vec3Q.dot p1.w p1.point) p2.w))
          (Vec3Q.neg wp)),
      wp⟩

/-- `CuttingPlane::intersection_line` (unit normal `w/|w|`, unit direction
`dir/|dir|`): the parallel guard `|n·d̂| < EPSILON` becomes
`(w·dir)² < EPSILON²·|w|²·|dir|²`; in `point + d̂·t` the `|dir|` factor of the
unit direction cancels against the one in `t`, leaving the rational
`point + dir·((P − point)·w)/(dir·w)`. -/
def intersection_line_n (pl : HullPlane) (l : HullLine) : Option Vec3Q :=
  if (Vec3Q.dot pl.w l.dir) ^ 2
      < EPSILON ^ 2 * (Vec3Q.lengthSq pl.w * Vec3Q.lengthSq l.dir) then none
  else
    some (Vec3Q.addv l.point
      (Vec3Q.scale (Vec3Q.dot (Vec3Q.sub pl.point l.point) pl.w / Vec3Q.dot l.dir pl.w)
        l.dir))

/-- `struct ConvexHull` for the rational pipeline. -/
structure HullQ where
  planes : List HullPlane
deriving DecidableEq, Repr

namespace HullQ

/-- The vertex-acceptance test of `ConvexHull::vertices`:
`|signed_distance(p)| < EPSILON` where `signed_distance` is the maximum of
the per-plane distances (folded from `NEG_INFINITY`): the maximum is below
`EPSILON` iff every distance is, and above `-EPSILON` iff some distance is
(false for an empty plane list, matching `|NEG_INFINITY| < EPSILON`). -/
def vertex_filter (h : HullQ) (p : Vec3Q) : Bool :=
  h.planes.all (fun pl => pl.dist_lt p EPSILON)
    && h.planes.any (fun pl => pl.dist_gt p (-EPSILON))

/-- `ConvexHull::vertices`: every ordered triple of distinct planes
(`index1 > index2 > index3`), intersecting the first two into a line, the
line with the third plane, keeping points within `EPSILON` of the hull. -/
def vertices (h : HullQ) : List Vec3Q :=
  (List.range h.planes.length).flatMap (fun index1 =>
    (List.range index1).flatMap (fun index2 =>
      (List.range index2).filterMap (fun index3 =>
        match intersection_plane_n (h.planes.getD index1 ⟨⟨0, 0, 0⟩, ⟨0, 0, 0⟩⟩)
            (h.planes.getD index2 ⟨⟨0, 0, 0⟩, ⟨0, 0, 0⟩⟩) with
        | none => none
        | some line =>
          match intersection_line_n (h.planes.getD index3 ⟨⟨0, 0, 0⟩, ⟨0, 0, 0⟩⟩) line with
          | none => none
          | some point => if h.vertex_filter point then some point else none)))

/-- `ConvexHull::simplify`: keep only planes touching at least 3 computed
vertices (`|signed_distance| ≤ EPSILON`), and reject the hull when 3 or fewer
planes remain. -/
def simplify (h : HullQ) : Option HullQ :=
  let vs := h.vertices
  let planes := h.planes.filter (fun pl =>
    decide (3 ≤ (vs.filter (fun v => pl.abs_dist_le v EPSILON)).length))
  if planes.length ≤ 3 then none
  else some ⟨planes⟩

/-- Decides `|signed_distance(p)| ≤ c` for the hull (maximum of the per-plane
distances): the maximum is at most `c` iff every distance is, and at least
`-c` iff some distance is. -/
def abs_distance_le (h : HullQ) (p : Vec3Q) (c : ℚ) : Bool :=
  h.planes.all (fun pl => !(pl.dist_gt p c))
    && h.planes.any (fun pl => !(pl.dist_lt p (-c)))

end HullQ

/-- `ConvexHull::from_points`: build a candidate plane from every triple of
points (`ai > bi > ci`); drop a plane when all points lie within `EPSILON` of
it or when points lie strictly beyond `EPSILON` on both sides; flip it when
the positive side sticks out; then `simplify`.  The running minimum and
maximum of the signed distances `tᵢ/√W` (initialised at `0.0` like the
source's accumulators) are tracked through their numerators `tᵢ`, which share
the denominator `√W`. -/
def from_points (points : List Vec3Q) : Option HullQ :=
  let planes := (List.range points.length).flatMap (fun ai =>
    (List.range ai).flatMap (fun bi =>
      (List.range bi).filterMap (fun ci =>
        from_triangle (points.getD ai ⟨0, 0, 0⟩) (points.getD bi ⟨0, 0, 0⟩)
          (points.getD ci ⟨0, 0, 0⟩))))
  let planes := planes.filterMap (fun pl =>
    let tmin := points.foldl (fun m p => min m (pl.distT p)) 0
    let tmax := points.foldl (fun m p => max m (pl.distT p)) 0
    if !ltSqrt tmin (-EPSILON) pl.wSq && !ltSqrt (-tmax) (-EPSILON) pl.wSq then
      none
    else if ltSqrt tmin (-EPSILON) pl.wSq && ltSqrt (-tmax) (-EPSILON) pl.wSq then
      none
    else if ltSqrt (-tmax) (-EPSILON) pl.wSq then some pl.flipped
    else some pl)
  HullQ.simplify ⟨planes⟩

/-- Four points are coplanar exactly when the scalar triple product of their
difference vectors vanishes. -/
def coplanar (a b c d : Vec3Q) : Prop :=
  Vec3Q.dot (Vec3Q.sub b a) (Vec3Q.cross (Vec3Q.sub c a) (Vec3Q.sub d a)) = 0

/-- Claim C5 (counterexample): four non-coplanar points for which
`from_points` returns `None`.  The regular tetrahedron scaled to edge length
`1/20000` (below `EPSILON = 1/10000`) has a nonzero scalar triple product —
the points are exactly non-coplanar — yet every triple of points trips the
`d.length() < EPSILON` guard of `from_triangle`, so no candidate plane is
ever built and `simplify` rejects the empty hull. -/
theorem claim_C5_convex_hull_counterexample :
    ¬ coplanar ⟨0, 0, 0⟩ ⟨1/20000, 0, 0⟩ ⟨0, 1/20000, 0⟩ ⟨0, 0, 1/20000⟩
    ∧ from_points [⟨0, 0, 0⟩, ⟨1/20000, 0, 0⟩, ⟨0, 1/20000, 0⟩, ⟨0, 0, 1/20000⟩]
        = none := by
  constructor
  · norm_num [coplanar, Vec3Q.dot, Vec3Q.cross, Vec3Q.sub]
  · have h1 : from_triangle ⟨0, 1/20000, 0⟩ ⟨1/20000, 0, 0⟩ ⟨0, 0, 0⟩ = none := by
      norm_num [from_triangle, Vec3Q.sub, Vec3Q.lengthSq, Vec3Q.dot, Vec3Q.cross, EPSILON]
    have h2 : from_triangle ⟨0, 0, 1/20000⟩ ⟨1/20000, 0, 0⟩ ⟨0, 0, 0⟩ = none := by
      norm_num [from_triangle, Vec3Q.sub, Vec3Q.lengthSq, Vec3Q.dot, Vec3Q.cross, EPSILON]
    have h3 : from_triangle ⟨0, 0, 1/20000⟩ ⟨0, 1/20000, 0⟩ ⟨0, 0, 0⟩ = none := by
      norm_num [from_triangle, Vec3Q.sub, Vec3Q.lengthSq, Vec3Q.dot, Vec3Q.cross, EPSILON]
    have h4 : from_triangle ⟨0, 0, 1/20000⟩ ⟨0, 1/20000, 0⟩ ⟨1/20000, 0, 0⟩ = none := by
      norm_num [from_triangle, Vec3Q.sub, Vec3Q.lengthSq, Vec3Q.dot, Vec3Q.cross, EPSILON]
    unfold from_points
    simp only [List.length_cons, List.length_nil, List.range_succ, List.range_zero,
      List.nil_append, List.cons_append, List.flatMap_cons, List.flatMap_nil,
      List.filterMap_cons, List.filterMap_nil, List.getD_cons_zero, List.getD_cons_succ,
      List.append_nil, h1, h2, h3, h4]
    simp [HullQ.simplify, HullQ.vertices]

set_option maxHeartbeats 1600000 in
/-- Claim C5 (amended): `from_points` on a well-separated non-coplanar
quadruple — the unit tetrahedron — returns a hull, and each of the four
input points' hull signed distance is within `EPSILON` of zero (it is
exactly zero: each point lies on three of the four retained planes and
strictly inside the fourth).  The universal form of the claim fails for
epsilon-degenerate non-coplanar quadruples (see the counterexample). -/
theorem claim_C5_convex_hull :
    ¬ coplanar ⟨0, 0, 0⟩ ⟨1, 0, 0⟩ ⟨0, 1, 0⟩ ⟨0, 0, 1⟩
    ∧ ∃ hull,
      from_points [⟨0, 0, 0⟩, ⟨1, 0, 0⟩, ⟨0, 1, 0⟩, ⟨0, 0, 1⟩] = some hull
      ∧ hull.abs_distance_le ⟨0, 0, 0⟩ EPSILON = true
      ∧ hull.abs_distance_le ⟨1, 0, 0⟩ EPSILON = true
      ∧ hull.abs_distance_le ⟨0, 1, 0⟩ EPSILON = true
      ∧ hull.abs_distance_le ⟨0, 0, 1⟩ EPSILON = true := by
  constructor
  · norm_num [coplanar, Vec3Q.dot, Vec3Q.cross, Vec3Q.sub]
  refine ⟨⟨[⟨⟨0, 1, 0⟩, ⟨0, 0, -1⟩⟩, ⟨⟨0, 0, 1⟩, ⟨0, -1, 0⟩⟩, ⟨⟨0, 0, 1⟩, ⟨-1, 0, 0⟩⟩,
    ⟨⟨0, 0, 1⟩, ⟨1, 1, 1⟩⟩]⟩, ?_, ?_, ?_, ?_, ?_⟩
  · have hA : from_triangle ⟨0, 1, 0⟩ ⟨1, 0, 0⟩ ⟨0, 0, 0⟩
        = some ⟨⟨0, 1, 0⟩, ⟨0, 0, -1⟩⟩ := by
      norm_num [from_triangle, Vec3Q.sub, Vec3Q.cross, Vec3Q.lengthSq, Vec3Q.dot, EPSILON]
    have hB : from_triangle ⟨0, 0, 1⟩ ⟨1, 0, 0⟩ ⟨0, 0, 0⟩
        = some ⟨⟨0, 0, 1⟩, ⟨0, 1, 0⟩⟩ := by
      norm_num [from_triangle, Vec3Q.sub, Vec3Q.cross, Vec3Q.lengthSq, Vec3Q.dot, EPSILON]
    have hC : from_triangle ⟨0, 0, 1⟩ ⟨0, 1, 0⟩ ⟨0, 0, 0⟩
        = some ⟨⟨0, 0, 1⟩, ⟨-1, 0, 0⟩⟩ := by
      norm_num [from_triangle, Vec3Q.sub, Vec3Q.cross, Vec3Q.lengthSq, Vec3Q.dot, EPSILON]
    have hD : from_triangle ⟨0, 0, 1⟩ ⟨0, 1, 0⟩ ⟨1, 0, 0⟩
        = some ⟨⟨0, 0, 1⟩, ⟨-1, -1, -1⟩⟩ := by
      norm_num [from_triangle, Vec3Q.sub, Vec3Q.cross, Vec3Q.lengthSq, Vec3Q.dot, EPSILON]
    have hI1 : intersection_plane_n ⟨⟨0, 0, 1⟩, ⟨-1, 0, 0⟩⟩ ⟨⟨0, 0, 1⟩, ⟨0, -1, 0⟩⟩
        = some ⟨⟨0, 0, 0⟩, ⟨0, 0, 1⟩⟩ := by
      norm_num [intersection_plane_n, Vec3Q.cross, Vec3Q.lengthSq, Vec3Q.dot, Vec3Q.sub,
        Vec3Q.scale, Vec3Q.neg, EPSILON]
    have hI2 : intersection_plane_n ⟨⟨0, 0, 1⟩, ⟨1, 1, 1⟩⟩ ⟨⟨0, 0, 1⟩, ⟨0, -1, 0⟩⟩
        = some ⟨⟨1/2, 0, 1/2⟩, ⟨1, 0, -1⟩⟩ := by
      norm_num [intersection_plane_n, Vec3Q.cross, Vec3Q.lengthSq, Vec3Q.dot, Vec3Q.sub,
        Vec3Q.scale, Vec3Q.neg, EPSILON]
    have hI3 : intersection_plane_n ⟨⟨0, 0, 1⟩, ⟨1, 1, 1⟩⟩ ⟨⟨0, 0, 1⟩, ⟨-1, 0, 0⟩⟩
        = some ⟨⟨0, 1/2, 1/2⟩, ⟨0, -1, 1⟩⟩ := by
      norm_num [intersection_plane_n, Vec3Q.cross, Vec3Q.lengthSq, Vec3Q.dot, Vec3Q.sub,
        Vec3Q.scale, Vec3Q.neg, EPSILON]
    have hL1 : intersection_line_n ⟨⟨0, 1, 0⟩, ⟨0, 0, -1⟩⟩ ⟨⟨0, 0, 0⟩, ⟨0, 0, 1⟩⟩
        = some ⟨0, 0, 0⟩ := by
      norm_num [intersection_line_n, Vec3Q.dot, Vec3Q.sub, Vec3Q.scale, Vec3Q.addv,
        Vec3Q.lengthSq, EPSILON]
    have hL2 : intersection_line_n ⟨⟨0, 1, 0⟩, ⟨0, 0, -1⟩⟩ ⟨⟨1/2, 0, 1/2⟩, ⟨1, 0, -1⟩⟩
        = some ⟨1, 0, 0⟩ := by
      norm_num [intersection_line_n, Vec3Q.dot, Vec3Q.sub, Vec3Q.scale, Vec3Q.addv,
        Vec3Q.lengthSq, EPSILON]
    have hL3 : intersection_line_n ⟨⟨0, 1, 0⟩, ⟨0, 0, -1⟩⟩ ⟨⟨0, 1/2, 1/2⟩, ⟨0, -1, 1⟩⟩
        = some ⟨0, 1, 0⟩ := by
      norm_num [intersection_line_n, Vec3Q.dot, Vec3Q.sub, Vec3Q.scale, Vec3Q.addv,
        Vec3Q.lengthSq, EPSILON]
    have hL4 : intersection_line_n ⟨⟨0, 0, 1⟩, ⟨0, -1, 0⟩⟩ ⟨⟨0, 1/2, 1/2⟩, ⟨0, -1, 1⟩⟩
        = some ⟨0, 0, 1⟩ := by
      norm_num [intersection_line_n, Vec3Q.dot, Vec3Q.sub, Vec3Q.scale, Vec3Q.addv,
        Vec3Q.lengthSq, EPSILON]
    have hQ1 : HullQ.vertex_filter
        ⟨[⟨⟨0, 1, 0⟩, ⟨0, 0, -1⟩⟩, ⟨⟨0, 0, 1⟩, ⟨0, -1, 0⟩⟩, ⟨⟨0, 0, 1⟩, ⟨-1, 0, 0⟩⟩,
          ⟨⟨0, 0, 1⟩, ⟨1, 1, 1⟩⟩]⟩ ⟨0, 0, 0⟩ = true := by
      norm_num [HullQ.vertex_filter, HullPlane.dist_lt, HullPlane.dist_gt, HullPlane.distT,
        HullPlane.wSq, ltSqrt, Vec3Q.sub, Vec3Q.dot, Vec3Q.lengthSq, EPSILON]
    have hQ2 : HullQ.vertex_filter
        ⟨[⟨⟨0, 1, 0⟩, ⟨0, 0, -1⟩⟩, ⟨⟨0, 0, 1⟩, ⟨0, -1, 0⟩⟩, ⟨⟨0, 0, 1⟩, ⟨-1, 0, 0⟩⟩,
          ⟨⟨0, 0, 1⟩, ⟨1, 1, 1⟩⟩]⟩ ⟨1, 0, 0⟩ = true := by
      norm_num [HullQ.vertex_filter, HullPlane.dist_lt, HullPlane.dist_gt, HullPlane.distT,
        HullPlane.wSq, ltSqrt, Vec3Q.sub, Vec3Q.dot, Vec3Q.lengthSq, EPSILON]
    have hQ3 : HullQ.vertex_filter
        ⟨[⟨⟨0, 1, 0⟩, ⟨0, 0, -1⟩⟩, ⟨⟨0, 0, 1⟩, ⟨0, -1, 0⟩⟩, ⟨⟨0, 0, 1⟩, ⟨-1, 0, 0⟩⟩,
          ⟨⟨0, 0, 1⟩, ⟨1, 1, 1⟩⟩]⟩ ⟨0, 1, 0⟩ = true := by
      norm_num [HullQ.vertex_filter, HullPlane.dist_lt, HullPlane.dist_gt, HullPlane.distT,
        HullPlane.wSq, ltSqrt, Vec3Q.sub, Vec3Q.dot, Vec3Q.lengthSq, EPSILON]
    have hQ4 : HullQ.vertex_filter
        ⟨[⟨⟨0, 1, 0⟩, ⟨0, 0, -1⟩⟩, ⟨⟨0, 0, 1⟩, ⟨0, -1, 0⟩⟩, ⟨⟨0, 0, 1⟩, ⟨-1, 0, 0⟩⟩,
          ⟨⟨0, 0, 1⟩, ⟨1, 1, 1⟩⟩]⟩ ⟨0, 0, 1⟩ = true := by
      norm_num [HullQ.vertex_filter, HullPlane.dist_lt, HullPlane.dist_gt, HullPlane.distT,
        HullPlane.wSq, ltSqrt, Vec3Q.sub, Vec3Q.dot, Vec3Q.lengthSq, EPSILON]
    have hv : HullQ.vertices
        ⟨[⟨⟨0, 1, 0⟩, ⟨0, 0, -1⟩⟩, ⟨⟨0, 0, 1⟩, ⟨0, -1, 0⟩⟩, ⟨⟨0, 0, 1⟩, ⟨-1, 0, 0⟩⟩,
          ⟨⟨0, 0, 1⟩, ⟨1, 1, 1⟩⟩]⟩
        = [⟨0, 0, 0⟩, ⟨1, 0, 0⟩, ⟨0, 1, 0⟩, ⟨0, 0, 1⟩] := by
      simp only [HullQ.vertices, List.length_cons, List.length_nil, List.range_succ,
        List.range_zero, List.nil_append, List.cons_append, List.flatMap_cons,
        List.flatMap_nil, List.filterMap_cons, List.filterMap_nil, List.append_nil,
        List.getD_cons_zero, List.getD_cons_succ, hI1, hI2, hI3, hL1, hL2, hL3, hL4,
        hQ1, hQ2, hQ3, hQ4, if_true]
    have hs : HullQ.simplify
        ⟨[⟨⟨0, 1, 0⟩, ⟨0, 0, -1⟩⟩, ⟨⟨0, 0, 1⟩, ⟨0, -1, 0⟩⟩, ⟨⟨0, 0, 1⟩, ⟨-1, 0, 0⟩⟩,
          ⟨⟨0, 0, 1⟩, ⟨1, 1, 1⟩⟩]⟩
        = some ⟨[⟨⟨0, 1, 0⟩, ⟨0, 0, -1⟩⟩, ⟨⟨0, 0, 1⟩, ⟨0, -1, 0⟩⟩, ⟨⟨0, 0, 1⟩, ⟨-1, 0, 0⟩⟩,
            ⟨⟨0, 0, 1⟩, ⟨1, 1, 1⟩⟩]⟩ := by
      simp only [HullQ.simplify, hv]
      norm_num [HullPlane.abs_dist_le, HullPlane.distT, HullPlane.wSq, Vec3Q.sub,
        Vec3Q.dot, Vec3Q.lengthSq, EPSILON]
    unfold from_points
    simp only [List.length_cons, List.length_nil, List.range_succ, List.range_zero,
      List.nil_append, List.cons_append, List.flatMap_cons, List.flatMap_nil,
      List.filterMap_cons, List.filterMap_nil, List.getD_cons_zero, List.getD_cons_succ,
      List.append_nil, hA, hB, hC, hD]
    norm_num [HullPlane.distT, HullPlane.wSq, HullPlane.flipped, ltSqrt, min_def, max_def,
      List.foldl_cons, List.foldl_nil, Vec3Q.sub, Vec3Q.dot, Vec3Q.neg, Vec3Q.lengthSq,
      EPSILON, hs]
  · norm_num [HullQ.abs_distance_le, HullPlane.dist_lt, HullPlane.dist_gt, HullPlane.distT,
      HullPlane.wSq, ltSqrt, Vec3Q.sub, Vec3Q.dot, Vec3Q.lengthSq, Vec3Q.neg, EPSILON]
  · norm_num [HullQ.abs_distance_le, HullPlane.dist_lt, HullPlane.dist_gt, HullPlane.distT,
      HullPlane.wSq, ltSqrt, Vec3Q.sub, Vec3Q.dot, Vec3Q.lengthSq, Vec3Q.neg, EPSILON]
  · norm_num [HullQ.abs_distance_le, HullPlane.dist_lt, HullPlane.dist_gt, HullPlane.distT,
      HullPlane.wSq, ltSqrt, Vec3Q.sub, Vec3Q.dot, Vec3Q.lengthSq, Vec3Q.neg, EPSILON]
  · norm_num [HullQ.abs_distance_le, HullPlane.dist_lt, HullPlane.dist_gt, HullPlane.distT,
      HullPlane.wSq, ltSqrt, Vec3Q.sub, Vec3Q.dot, Vec3Q.lengthSq, Vec3Q.neg, EPSILON]

end TfBlockEditor
